import Mathlib

/-!
Verification of the `vanush` document-credibility analyzer against its
natural-language specification.

The development shallowly embeds the Python source:

* `backend/agents/text_extractor.py` — the content-acquisition engine
  (URL classification, quality gate, PDF / HTML / publisher-specific
  extraction strategies, fallback-URL generation, text cleaning);
* `backend/agents/*.py` — the analysis agents (collaborator calls plus the
  pure post-processing the Python code performs on the returned results);
* `backend/agents/manager.py` — the orchestrator (`manager_agent`,
  `manager_synthesis_agent`);
* `backend/app.py` — the operation endpoints (`analyze_text`, score
  clamping, response shaping in `format_results`).

Python strings are modelled as `List Char` (`Str`).  External effects —
HTTP fetches, the pypdf page reader, BeautifulSoup parsing, and each
agent's call to the external reasoning collaborator — are oracles supplied
by an environment record; everything the Python code itself computes
(string cleaning, thresholds, branching, post-processing of collaborator
output) is embedded as executable Lean functions.  Network fetches are
additionally recorded in a trace (the list of URLs fetched, in order) so
ordering properties of acquisition attempts can be stated.
-/

set_option maxRecDepth 100000

namespace Vanush

/-- Python strings, modelled as lists of characters. -/
abbrev Str := List Char

/-- Convert a Lean string literal into the `Str` model. -/
def str (s : String) : Str := s.data

/-- The characters Python's `str.strip()` / `str.split()` treat as
whitespace (ASCII subset: space, tab, newline, carriage return, vertical
tab, form feed). -/
def isPySpace (c : Char) : Bool :=
  c = ' ' || c = '\t' || c = '\n' || c = '\r' || c = '\x0b' || c = '\x0c'

/-- Drop leading Python whitespace (the front half of `str.strip()`). -/
def dropL (l : Str) : Str := l.dropWhile isPySpace

/-- Drop trailing Python whitespace (the back half of `str.strip()`). -/
def dropR (l : Str) : Str := (l.reverse.dropWhile isPySpace).reverse

/-- Python's `str.strip()`. -/
def pyStrip (l : Str) : Str := dropR (dropL l)

/-- Length of `s.strip()`, as used by the quality checks
(`len(text.strip())`). -/
def strippedLen (l : Str) : Nat := (pyStrip l).length

/-- Python's `needle in haystack` substring test. -/
def containsSub : Str → Str → Bool
  | n, [] => n.isEmpty
  | n, c :: t => n.isPrefixOf (c :: t) || containsSub n t

/-- Python's `str.lower()` (ASCII letters; the URLs handled by the code
are ASCII). -/
def pyLower (l : Str) : Str := l.map Char.toLower

/-- Python's `str.endswith(suffix)`. -/
def endsWith (suffix l : Str) : Bool := suffix.isSuffixOf l

/-- Python's `str.startswith(prefix)`. -/
def startsWith (pre l : Str) : Bool := pre.isPrefixOf l

/-- Worker for `capRuns`: `cnt` is the number of consecutive copies of `c`
seen immediately before the current position; copies beyond the first `k`
of a run are dropped. -/
def capRunsGo (c : Char) (k : Nat) : Nat → Str → Str
  | _, [] => []
  | cnt, x :: xs =>
    if x = c then
      (if cnt < k then [c] else []) ++ capRunsGo c k (cnt + 1) xs
    else
      x :: capRunsGo c k 0 xs

/-- Cap every run of the character `c` at length `k`.
`capRuns '\n' 2` is `re.sub(r"\n{3,}", "\n\n", ·)` and `capRuns ' ' 1` is
`re.sub(r" {2,}", " ", ·)` from `clean_text`. -/
def capRuns (c : Char) (k : Nat) (l : Str) : Str := capRunsGo c k 0 l

/-- Python's `text.split(c)` for a single-character separator: the list of
(possibly empty) segments between occurrences of `c`; always non-empty. -/
def splitOnChar (c : Char) : Str → List Str
  | [] => [[]]
  | x :: xs =>
    match splitOnChar c xs with
    | [] => [[x]]
    | s :: rest => if x = c then [] :: s :: rest else (x :: s) :: rest

/-- Python's `c.join(segs)` for a single-character separator. -/
def joinWith (c : Char) : List Str → Str
  | [] => []
  | [l] => l
  | l :: l' :: rest => l ++ c :: joinWith c (l' :: rest)

/-- `bool(line.strip())`: the line contains at least one non-whitespace
character. -/
def hasContent (l : Str) : Bool := l.any (fun ch => !(isPySpace ch))

/-- `text_extractor.clean_text`: collapse runs of 3+ newlines to two,
collapse runs of 2+ spaces to one, drop whitespace-only lines, and strip
the result. -/
def clean_text (l : Str) : Str :=
  let t1 := capRuns '\n' 2 l
  let t2 := capRuns ' ' 1 t1
  let lines := (splitOnChar '\n' t2).filter hasContent
  pyStrip (joinWith '\n' lines)

example : clean_text (str "  a\n\n\n\nb  c\n   \nd ") = str "a\nb c\nd" := by decide

example : containsSub (str "abc") (str "xxabcy") = true := by decide

example : pyStrip (str "  ab \t\n") = str "ab" := by decide

/-- Python (c.sep).join with a multi-character separator, as in
the page join of `extract_pdf_bytes`. -/
def joinSep (sep : Str) : List Str → Str
  | [] => []
  | [l] => l
  | l :: l' :: rest => l ++ sep ++ joinSep sep (l' :: rest)

/-- Python's `str.replace(old, new)` worker: replace every non-overlapping
occurrence left to right (`old` is non-empty at every call site).  The
`fuel` argument makes the recursion structural; it is initialized to the
length of the scanned text, which bounds the number of steps since every
step consumes at least one character. -/
def replaceSubGo (old new : Str) : Nat → Str → Str
  | _, [] => []
  | 0, l => l
  | fuel + 1, x :: xs =>
    if old.isPrefixOf (x :: xs) then
      new ++ replaceSubGo old new fuel (xs.drop (old.length - 1))
    else
      x :: replaceSubGo old new fuel xs

/-- Python's `str.replace(old, new)`. -/
def replaceSub (old new l : Str) : Str :=
  if old.isEmpty then l else replaceSubGo old new l.length l

example : replaceSub (str "/doi/epdf/") (str "/doi/pdf/")
    (str "https://x.y/doi/epdf/10.1/a") = str "https://x.y/doi/pdf/10.1/a" := by decide

/-- The remainder of `l` after the first occurrence of `sep`, if any. -/
def afterFirst (sep : Str) : Str → Option Str
  | [] => if sep.isEmpty then some [] else none
  | x :: xs =>
    if sep.isPrefixOf (x :: xs) then some ((x :: xs).drop sep.length)
    else afterFirst sep xs

/-- `urlparse(url).netloc` for the absolute http(s) URLs the code handles:
the text between the scheme separator and the next `/`, `?` or `#`
(empty when the input has no scheme separator, as `urlparse` gives for a
bare path). -/
def netloc (u : Str) : Str :=
  match afterFirst (str "://") u with
  | none => []
  | some rest => rest.takeWhile (fun c => !(c = '/' || c = '?' || c = '#'))

example : netloc (str "https://link.springer.com/article/10.1/x?a=1")
    = str "link.springer.com" := by decide

/-! ## Acquisition-engine constants and URL classification
(`backend/agents/text_extractor.py`). -/

/-- Maximum text length sent downstream. -/
def MAX_TEXT_LENGTH : Nat := 200000

/-- Quality-gate threshold for general domains. -/
def MIN_TEXT_LENGTH_GENERAL : Nat := 250

/-- Quality-gate threshold for known scholarly-publisher domains. -/
def MIN_TEXT_LENGTH_SCHOLARLY : Nat := 1200

/-- The scholarly-publisher domain list `SCHOLARLY_DOMAINS`. -/
def SCHOLARLY_DOMAINS : List Str :=
  [str "link.springer.com", str "springer.com", str "onlinelibrary.wiley.com",
   str "sciencedirect.com", str "ieeexplore.ieee.org", str "nature.com",
   str "tandfonline.com", str "sagepub.com"]

/-- `is_pdf_url`: the lowercased URL ends in `.pdf` or contains `/pdf/`. -/
def is_pdf_url (url : Str) : Bool :=
  let url_lower := pyLower url
  endsWith (str ".pdf") url_lower || containsSub (str "/pdf/") url_lower

/-- `is_scholarly_url`: the lowercased netloc contains one of the
scholarly-publisher domains. -/
def is_scholarly_url (url : Str) : Bool :=
  let host := pyLower (netloc url)
  SCHOLARLY_DOMAINS.any (fun d => containsSub d host)

/-- `has_sufficient_text`: the quality gate; stripped length must reach the
domain-class threshold. -/
def has_sufficient_text (url text : Str) : Bool :=
  let min_len := if is_scholarly_url url then MIN_TEXT_LENGTH_SCHOLARLY
                 else MIN_TEXT_LENGTH_GENERAL
  !(strippedLen text < min_len)

example : is_pdf_url (str "https://a.b/x/PDF/y") = true := by decide

example : is_scholarly_url (str "https://onlinelibrary.wiley.com/doi/abs/10.1111/j") = true := by
  decide

/-! ## arXiv URL rewriting (`extract_from_arxiv`). -/

/-- Worker for `arxivAbsId`: the group captured from the remainder `r`
after the literal head.  The lazy group of the regex followed by an
optional slash and the anchor means: at most one trailing slash is
dropped, and only when a non-empty group remains. -/
def arxivGroup (r : Str) : Option Str :=
  if r.isEmpty then none
  else if r.getLast? = some '/' && !r.dropLast.isEmpty then some r.dropLast
  else some r

/-- Model of the anchored regex match on abstract URLs in
`extract_from_arxiv` (`https?`, the literal `arxiv.org/abs/` path, a lazy
non-empty group, an optional trailing slash). -/
def arxivAbsId (url : Str) : Option Str :=
  if startsWith (str "https://arxiv.org/abs/") url then
    arxivGroup (url.drop (str "https://arxiv.org/abs/").length)
  else if startsWith (str "http://arxiv.org/abs/") url then
    arxivGroup (url.drop (str "http://arxiv.org/abs/").length)
  else none

/-- The canonical full-text PDF URL built for a recognized arXiv id. -/
def arxivPdfUrl (paper_id : Str) : Str :=
  str "https://arxiv.org/pdf/" ++ paper_id ++ str ".pdf"

example : (arxivAbsId (str "https://arxiv.org/abs/2301.00001/")).map arxivPdfUrl
    = some (str "https://arxiv.org/pdf/2301.00001.pdf") := by decide

example : arxivAbsId (str "https://arxiv.org/pdf/2301.00001") = none := by decide

/-! ## DOI extraction (`extract_doi`), a model of the two `re.search`
patterns: `/doi/(?:epdf|pdfdirect|pdf|full|abs)?/?(10.<4-9 digits>/<not ?#>+)`
and `/(?:article|chapter)/(10.<4-9 digits>/<not ?#>+)`. -/

/-- Parse the captured DOI group at the current position: `10.` then 4 to 9
digits then `/` then at least one character other than `?` and `#`
(greedy, so all digits are taken; a digit count outside 4..9 cannot be
saved by backtracking because the character after fewer digits is still a
digit, not `/`). -/
def parseDoiGroup (l : Str) : Option Str :=
  if startsWith (str "10.") l then
    let rest := l.drop 3
    let digs := rest.takeWhile Char.isDigit
    let n := digs.length
    if 4 ≤ n && n ≤ 9 && (rest.drop n).take 1 = [ '/' ] then
      let body := (rest.drop (n + 1)).takeWhile (fun c => !(c = '?' || c = '#'))
      if body.isEmpty then none
      else some (str "10." ++ digs ++ '/' :: body)
    else none
  else none

/-- Try the DOI group after an optional `/` (the regex tries the greedy
reading, consuming the slash, first). -/
def doiAfterOptSlash (r : Str) : Option Str :=
  match (if startsWith (str "/") r then parseDoiGroup (r.drop 1) else none) with
  | some g => some g
  | none => parseDoiGroup r

/-- Match the first pattern at one position: the literal `/doi/`, then the
keyword alternation (in regex order, by backtracking also the empty
alternative), then the optional slash and the group. -/
def matchDoiA (l : Str) : Option Str :=
  if startsWith (str "/doi/") l then
    let r := l.drop 5
    let kws := [str "epdf", str "pdfdirect", str "pdf", str "full", str "abs"]
    match kws.foldl
        (fun acc kw => match acc with
          | some g => some g
          | none =>
            if startsWith kw r then doiAfterOptSlash (r.drop kw.length) else none)
        none with
    | some g => some g
    | none => doiAfterOptSlash r
  else none

/-- Match the second pattern at one position. -/
def matchDoiB (l : Str) : Option Str :=
  if startsWith (str "/article/") l then parseDoiGroup (l.drop 9)
  else if startsWith (str "/chapter/") l then parseDoiGroup (l.drop 9)
  else none

/-- `re.search` semantics: leftmost position with a match wins. -/
def searchDoiA : Str → Option Str
  | [] => none
  | x :: xs =>
    match matchDoiA (x :: xs) with
    | some g => some g
    | none => searchDoiA xs

/-- `re.search` for the second pattern. -/
def searchDoiB : Str → Option Str
  | [] => none
  | x :: xs =>
    match matchDoiB (x :: xs) with
    | some g => some g
    | none => searchDoiB xs

/-- Python `group.strip(a slash)` applied to the captured DOI. -/
def stripSlashes (l : Str) : Str :=
  ((l.dropWhile (· = '/')).reverse.dropWhile (· = '/')).reverse

/-- `extract_doi`: the first pattern is tried over the whole URL, then the
second. -/
def extract_doi (url : Str) : Option Str :=
  match searchDoiA url with
  | some g => some (stripSlashes g)
  | none =>
    match searchDoiB url with
    | some g => some (stripSlashes g)
    | none => none

example : extract_doi (str "https://onlinelibrary.wiley.com/doi/epdf/10.1111/jora.70091")
    = some (str "10.1111/jora.70091") := by decide

example : extract_doi (str "https://link.springer.com/article/10.1007/s10648-024-09876-8?x=1")
    = some (str "10.1007/s10648-024-09876-8") := by decide

example : extract_doi (str "https://example.com/a/b") = none := by decide

/-! ## Fallback URL variants (`build_fallback_urls`). -/

/-- The `add` closure: append a candidate when it is non-empty, differs
from the original URL and is not yet listed. -/
def addVariant (url : Str) (vs : List Str) (cand : Str) : List Str :=
  if !cand.isEmpty && cand ≠ url && !vs.contains cand then vs ++ [cand] else vs

/-- `build_fallback_urls`: Wiley path-segment rewrites, the generic
`/epdf/` rewrite, then a `download=true` variant of every candidate so
far. -/
def build_fallback_urls (url : Str) : List Str :=
  let host := pyLower (netloc url)
  let vs : List Str := []
  let vs :=
    if containsSub (str "onlinelibrary.wiley.com") host then
      let vs := addVariant url vs (replaceSub (str "/doi/epdf/") (str "/doi/pdf/") url)
      let vs := addVariant url vs (replaceSub (str "/doi/epdf/") (str "/doi/pdfdirect/") url)
      let vs := addVariant url vs (replaceSub (str "/doi/full/") (str "/doi/pdf/") url)
      let vs := addVariant url vs (replaceSub (str "/doi/full/") (str "/doi/pdfdirect/") url)
      let vs := addVariant url vs (replaceSub (str "/doi/abs/") (str "/doi/pdf/") url)
      addVariant url vs (replaceSub (str "/doi/abs/") (str "/doi/pdfdirect/") url)
    else vs
  let vs := addVariant url vs (replaceSub (str "/epdf/") (str "/pdf/") url)
  vs.foldl
    (fun acc cand =>
      let joiner := if containsSub (str "?") cand then str "&" else str "?"
      addVariant url acc (cand ++ joiner ++ str "download=true"))
    vs

example : build_fallback_urls (str "https://onlinelibrary.wiley.com/doi/epdf/10.1111/jora.70091")
    = [str "https://onlinelibrary.wiley.com/doi/pdf/10.1111/jora.70091",
       str "https://onlinelibrary.wiley.com/doi/pdfdirect/10.1111/jora.70091",
       str "https://onlinelibrary.wiley.com/doi/pdf/10.1111/jora.70091?download=true",
       str "https://onlinelibrary.wiley.com/doi/pdfdirect/10.1111/jora.70091?download=true"] := by
  decide

/-! ## The acquisition environment

External effects are oracles.  An HTTP response carries, besides the raw
status, headers and body bytes, the outcomes of the BeautifulSoup
operations the code applies to its body (`containerText` for the
main-content container selection of `extract_from_html`, `fullText` for
the whole-page `get_text` of the Wiley flow, `pdfLinks` for
`discover_pdf_links_from_html`): parsing is deterministic in the response,
so these are response attributes.  `readPdf` is the pypdf page reader
applied to body bytes (`none` models a parse exception).  The model is
stateless (session cookies do not change the oracle), which is the
deterministic special case of the real network.

Every function that performs fetches returns the list of fetched URLs, in
order, next to its result, so that properties about which URL is fetched
first can be stated. -/

/-- An HTTP response as the extractor observes it. -/
structure HttpResp where
  status : Nat
  contentType : Str
  content : List Nat
  containerText : Option Str
  fullText : Str
  pdfLinks : List Str
  respUrl : Str

/-- The oracle environment for acquisition. -/
structure FetchEnv where
  isFile : Str → Bool
  readFile : Str → Option (List Nat)
  get : Str → Option HttpResp
  readPdf : List Nat → Option (List Str)

/-- The `%PDF-` magic bytes. -/
def magicPDF : List Nat := [37, 80, 68, 70, 45]

/-- `extract_pdf_bytes`: check the magic signature, read pages, join the
non-empty page texts with a blank-line separator, reject stripped text
under 100 characters, truncate to the cap. -/
def extract_pdf_bytes (env : FetchEnv) (pdf_bytes : List Nat) : Option Str :=
  if pdf_bytes.take 5 ≠ magicPDF then none
  else
    match env.readPdf pdf_bytes with
    | none => none
    | some pages =>
      let text_parts := pages.filter (fun p => !p.isEmpty)
      let text := joinSep (str "\n\n") text_parts
      if strippedLen text < 100 then none
      else some (text.take MAX_TEXT_LENGTH)

/-- `extract_from_pdf`: fetch the URL (an exception or an error status
yields `None`) and run `extract_pdf_bytes` on the body. -/
def extract_from_pdf (env : FetchEnv) (url : Str) : Option Str × List Str :=
  (match env.get url with
   | none => none
   | some r => if 400 ≤ r.status then none else extract_pdf_bytes env r.content,
   [url])

/-- `extract_from_local_pdf`: read the file and run `extract_pdf_bytes`. -/
def extract_from_local_pdf (env : FetchEnv) (path : Str) : Option Str :=
  match env.readFile path with
  | none => none
  | some bytes => extract_pdf_bytes env bytes

/-- `extract_from_html`: fetch, require an html/text content type (checked
without lowercasing, as in the source), take the selected main-content
container text, clean it, reject stripped text under 100 characters,
truncate to the cap. -/
def extract_from_html (env : FetchEnv) (url : Str) : Option Str × List Str :=
  (match env.get url with
   | none => none
   | some r =>
     if 400 ≤ r.status then none
     else if !(containsSub (str "html") r.contentType
               || containsSub (str "text") r.contentType) then none
     else
       match r.containerText with
       | none => none
       | some article_text =>
         if article_text.isEmpty then none
         else
           let text := clean_text article_text
           if strippedLen text < 100 then none
           else some (text.take MAX_TEXT_LENGTH),
   [url])

/-- `extract_from_arxiv`: on a recognized abstract URL, fetch the
rewritten PDF URL. -/
def extract_from_arxiv (env : FetchEnv) (url : Str) : Option Str × List Str :=
  match arxivAbsId url with
  | some paper_id => extract_from_pdf env (arxivPdfUrl paper_id)
  | none => (none, [])

/-- Which strategy of `extract_text_basic` produced the text (mirrors the
success log line the source prints on each branch). -/
inductive Route
  | arxiv
  | directPdf
  | html
  | lastResortPdf
deriving DecidableEq, Repr

/-- `extract_text_basic`, instrumented with the producing route: the arXiv
handler, then the direct PDF fetch for PDF-shaped URLs, then HTML
extraction behind the quality gate, then a last-resort PDF fetch behind
the quality gate.  The gate (`has_sufficient_text`) guards only the last
two strategies. -/
def extract_text_basicR (env : FetchEnv) (url : Str) :
    Option (Str × Route) × List Str :=
  let a := if containsSub (str "arxiv.org") url then extract_from_arxiv env url
           else (none, [])
  match a.1 with
  | some text => (some (text, Route.arxiv), a.2)
  | none =>
    let b := if is_pdf_url url then extract_from_pdf env url else (none, [])
    match b.1 with
    | some text => (some (text, Route.directPdf), a.2 ++ b.2)
    | none =>
      let c := extract_from_html env url
      let htmlOk := match c.1 with
        | some text => if has_sufficient_text url text then some text else none
        | none => none
      match htmlOk with
      | some text => (some (text, Route.html), a.2 ++ b.2 ++ c.2)
      | none =>
        let d := extract_from_pdf env url
        match d.1 with
        | some text =>
          if has_sufficient_text url text then
            (some (text, Route.lastResortPdf), a.2 ++ b.2 ++ c.2 ++ d.2)
          else (none, a.2 ++ b.2 ++ c.2 ++ d.2)
        | none => (none, a.2 ++ b.2 ++ c.2 ++ d.2)

/-- `extract_text_basic` as the source returns it (text only). -/
def extract_text_basic (env : FetchEnv) (url : Str) : Option Str × List Str :=
  let r := extract_text_basicR env url
  (r.1.map Prod.fst, r.2)

/-- The PDF-link discovery loop inside `extract_from_wiley`: fetch each
discovered link in the session, skip failures and error statuses, return
the first link whose body passes `extract_pdf_bytes`. -/
def wileyTryLinks (env : FetchEnv) : List Str → Option Str × List Str
  | [] => (none, [])
  | link :: rest =>
    match env.get link with
    | none =>
      let r := wileyTryLinks env rest
      (r.1, link :: r.2)
    | some resp =>
      if 400 ≤ resp.status then
        let r := wileyTryLinks env rest
        (r.1, link :: r.2)
      else
        match extract_pdf_bytes env resp.content with
        | some text => (some text, [link])
        | none =>
          let r := wileyTryLinks env rest
          (r.1, link :: r.2)

/-- The candidate loop of `extract_from_wiley`: for each candidate URL,
fetch; on a PDF-typed or magic-signature body run `extract_pdf_bytes`; on
an html/text body return the cleaned whole-page text when longer than 800
characters, otherwise follow discovered PDF links; otherwise continue. -/
def wileyTryCandidates (env : FetchEnv) : List Str → Option Str × List Str
  | [] => (none, [])
  | cand :: rest =>
    match env.get cand with
    | none =>
      let r := wileyTryCandidates env rest
      (r.1, cand :: r.2)
    | some resp =>
      if 400 ≤ resp.status then
        let r := wileyTryCandidates env rest
        (r.1, cand :: r.2)
      else
        let ct := pyLower resp.contentType
        if containsSub (str "pdf") ct || resp.content.take 5 = magicPDF then
          match extract_pdf_bytes env resp.content with
          | some text => (some text, [cand])
          | none =>
            let r := wileyTryCandidates env rest
            (r.1, cand :: r.2)
        else if containsSub (str "html") ct || containsSub (str "text") ct then
          let html_text := clean_text resp.fullText
          if 800 < html_text.length then
            (some (html_text.take MAX_TEXT_LENGTH), [cand])
          else
            let r1 := wileyTryLinks env resp.pdfLinks
            match r1.1 with
            | some text => (some text, cand :: r1.2)
            | none =>
              let r := wileyTryCandidates env rest
              (r.1, cand :: r1.2 ++ r.2)
        else
          let r := wileyTryCandidates env rest
          (r.1, cand :: r.2)

/-- `extract_from_wiley`: host check, DOI extraction, then the session
candidate loop over the five canonical Wiley URLs. -/
def extract_from_wiley (env : FetchEnv) (url : Str) : Option Str × List Str :=
  if !(containsSub (str "onlinelibrary.wiley.com") (pyLower (netloc url))) then
    (none, [])
  else
    match extract_doi url with
    | none => (none, [])
    | some doi =>
      wileyTryCandidates env
        [str "https://onlinelibrary.wiley.com/doi/" ++ doi,
         str "https://onlinelibrary.wiley.com/doi/full/" ++ doi,
         str "https://onlinelibrary.wiley.com/doi/abs/" ++ doi,
         str "https://onlinelibrary.wiley.com/doi/pdf/" ++ doi,
         str "https://onlinelibrary.wiley.com/doi/pdfdirect/" ++ doi]

/-- The PDF-link discovery loop inside `extract_from_springer`: as the
Wiley one, but each extracted text must also pass the quality gate for the
link URL. -/
def springerTryLinks (env : FetchEnv) : List Str → Option Str × List Str
  | [] => (none, [])
  | link :: rest =>
    match env.get link with
    | none =>
      let r := springerTryLinks env rest
      (r.1, link :: r.2)
    | some resp =>
      if 400 ≤ resp.status then
        let r := springerTryLinks env rest
        (r.1, link :: r.2)
      else
        match extract_pdf_bytes env resp.content with
        | some text =>
          if has_sufficient_text link text then (some text, [link])
          else
            let r := springerTryLinks env rest
            (r.1, link :: r.2)
        | none =>
          let r := springerTryLinks env rest
          (r.1, link :: r.2)

/-- The candidate loop of `extract_from_springer`: PDF-typed bodies go
through `extract_pdf_bytes` plus the quality gate; html/text bodies go
through `extract_from_html` on the response URL (a further fetch) plus the
gate, then through discovered PDF links. -/
def springerTryCandidates (env : FetchEnv) : List Str → Option Str × List Str
  | [] => (none, [])
  | cand :: rest =>
    match env.get cand with
    | none =>
      let r := springerTryCandidates env rest
      (r.1, cand :: r.2)
    | some resp =>
      if 400 ≤ resp.status then
        let r := springerTryCandidates env rest
        (r.1, cand :: r.2)
      else
        let ct := pyLower resp.contentType
        if containsSub (str "pdf") ct || resp.content.take 5 = magicPDF then
          match extract_pdf_bytes env resp.content with
          | some text =>
            if has_sufficient_text cand text then (some text, [cand])
            else
              let r := springerTryCandidates env rest
              (r.1, cand :: r.2)
          | none =>
            let r := springerTryCandidates env rest
            (r.1, cand :: r.2)
        else if containsSub (str "html") ct || containsSub (str "text") ct then
          let h := extract_from_html env resp.respUrl
          let htmlOk := match h.1 with
            | some text =>
              if has_sufficient_text resp.respUrl text then some text else none
            | none => none
          match htmlOk with
          | some text => (some text, cand :: h.2)
          | none =>
            let r1 := springerTryLinks env resp.pdfLinks
            match r1.1 with
            | some text => (some text, cand :: h.2 ++ r1.2)
            | none =>
              let r := springerTryCandidates env rest
              (r.1, cand :: h.2 ++ r1.2 ++ r.2)
        else
          let r := springerTryCandidates env rest
          (r.1, cand :: r.2)

/-- `extract_from_springer`: host check, DOI extraction, candidate loop
over the four canonical Springer URLs. -/
def extract_from_springer (env : FetchEnv) (url : Str) : Option Str × List Str :=
  if !(containsSub (str "link.springer.com") (pyLower (netloc url))) then
    (none, [])
  else
    match extract_doi url with
    | none => (none, [])
    | some doi =>
      springerTryCandidates env
        [str "https://link.springer.com/content/pdf/" ++ doi ++ str ".pdf",
         str "https://link.springer.com/content/pdf/" ++ doi ++ str ".pdf?download=1",
         str "https://link.springer.com/article/" ++ doi,
         str "https://link.springer.com/chapter/" ++ doi]

/-- The fallback-URL loop at the end of `extract_text`: run the basic
chain on each variant, stop at the first success. -/
def tryFallbackUrls (env : FetchEnv) : List Str → Option Str × List Str
  | [] => (none, [])
  | u :: rest =>
    let r := extract_text_basic env u
    match r.1 with
    | some text => (some text, r.2)
    | none =>
      let r' := tryFallbackUrls env rest
      (r'.1, r.2 ++ r'.2)

/-- `extract_text`: local PDF file, then the basic chain, then the Wiley
and Springer adapters, then the basic chain over each fallback URL
variant. -/
def extract_text (env : FetchEnv) (url : Str) : Option Str × List Str :=
  let loc := if env.isFile url && endsWith (str ".pdf") (pyLower url) then
               extract_from_local_pdf env url
             else none
  match loc with
  | some text => (some text, [])
  | none =>
    let b := extract_text_basic env url
    match b.1 with
    | some text => (some text, b.2)
    | none =>
      let w := extract_from_wiley env url
      match w.1 with
      | some text => (some text, b.2 ++ w.2)
      | none =>
        let s := extract_from_springer env url
        match s.1 with
        | some text => (some text, b.2 ++ w.2 ++ s.2)
        | none =>
          let f := tryFallbackUrls env (build_fallback_urls url)
          (f.1, b.2 ++ w.2 ++ s.2 ++ f.2)

/-! ## Analysis-agent result models

Pydantic result classes from `backend/agents/*.py`.  Scores (Python
floats) are modelled as rationals, optional fields as `Option`.
Presentation-only nested item lists (`evidence_items`, `useful_quotes`,
`useful_sections`) are elided; the `(type_name, count)` breakdown pairs
are modelled as plain pairs. -/

/-- `base_res_class.BaseAgentResult`. -/
structure BaseAgentResult where
  agent_name : Str
  overall_score : ℚ
  summary : Str
  confidence_score : ℚ
deriving DecidableEq

/-- `claim_check.claim_result`. -/
structure claim_result extends BaseAgentResult where
  central_claim : Str
deriving DecidableEq

/-- `citation_check.CitationResult`. -/
structure CitationResult extends BaseAgentResult where
  total_citations_found : ℤ
  verified_citations : ℤ
  unverified_citations : ℤ
  broken_links : List Str
  citation_types : List (Str × ℤ)
  flagged_citations : List Str
  peer_reviewed_count : ℤ
  self_citation_count : ℤ
  avg_citation_age_years : Option ℚ
  recommendations : List Str
deriving DecidableEq

/-- `bias.BiasCheckResult`. -/
structure BiasCheckResult extends BaseAgentResult where
  dominant_tone : Str
  key_indicators : List Str
  affected_topics : List Str
  recommendations : List Str
  bias_level : Str
deriving DecidableEq

/-- `author_org_check.AuthorResult`. -/
structure AuthorResult extends BaseAgentResult where
  author_name : Option Str
  organization : Option Str
  related_links : List Str
  total_articles_found : ℤ
  publication_types : List (Str × ℤ)
  notable_publications : List Str
  expertise_alignment_score : Option ℤ
  reliability_score_estimate : Option ℤ
  bias_indicators : List Str
  recommendations : List Str
deriving DecidableEq

/-- `evidence_check.EvidenceResult`. -/
structure EvidenceResult extends BaseAgentResult where
  central_claim_evaluated : Str
  total_evidence_found : ℤ
  supporting_evidence_count : ℤ
  contradicting_evidence_count : ℤ
  neutral_evidence_count : ℤ
  methodology_quality : Str
  data_quality : Str
  logical_consistency : Bool
  gaps_identified : List Str
  recommendations : List Str
deriving DecidableEq

/-- `usefullness_check.UsefulnessResult`. -/
structure UsefulnessResult extends BaseAgentResult where
  research_topic : Str
  alignment_score : ℚ
  key_arguments : List Str
  counterarguments : List Str
  gaps : List Str
  suggested_role : Str
  related_topics : List Str
  recommendations : List Str
deriving DecidableEq

/-- `date_check.DateResult`. -/
structure DateResult extends BaseAgentResult where
  date : Option Str
  relevance : Option Str
deriving DecidableEq

/-- `manager.ManagerSynthesisResult`.  Note that `recommendation` is a
plain string field. -/
structure ManagerSynthesisResult extends BaseAgentResult where
  overall_credibility_score : ℤ
  key_findings : List Str
  red_flags : List Str
  strengths : List Str
  final_verdict : Str
  recommendation : Str
deriving DecidableEq

/-- A Python exception surfacing from an agent call. -/
inductive PyErr
  | taskFailure
  | typeError
deriving DecidableEq

/-- Oracles for the external reasoning collaborator: one per agent,
applied to the semantic inputs the agent interpolates into its prompt.  An
error models a failed collaborator call or a schema-invalid reply
(`model_validate_json` raising). -/
structure AgentEnv where
  claimCall : Str → Except PyErr claim_result
  citationCall : Str → Except PyErr CitationResult
  biasCall : Str → Except PyErr BiasCheckResult
  dateCall : Str → Except PyErr DateResult
  evidenceCall : Str → Str → Except PyErr EvidenceResult
  usefulnessCall : Str → Str → Except PyErr UsefulnessResult
  authorCall : Str → Str → Str → Except PyErr AuthorResult
  synthesisCall : Str → claim_result → CitationResult → BiasCheckResult →
    AuthorResult → EvidenceResult → UsefulnessResult → DateResult →
    Except PyErr ManagerSynthesisResult

/-- `claim_check.claim_agent`: the validated collaborator reply is
returned unchanged. -/
def claim_agent (ρ : AgentEnv) (article : Str) : Except PyErr claim_result :=
  ρ.claimCall article

/-- `citation_check.citation_check_agent`: the validated collaborator
reply is returned unchanged. -/
def citation_check_agent (ρ : AgentEnv) (url : Str) : Except PyErr CitationResult :=
  ρ.citationCall url

/-- `bias.bias_check_agent`: the validated collaborator reply is returned
unchanged. -/
def bias_check_agent (ρ : AgentEnv) (article : Str) : Except PyErr BiasCheckResult :=
  ρ.biasCall article

/-- `date_check.date_check_agent`: after validation the code overwrites
`confidence_score` with 100 when `date` is truthy (present and non-empty)
and with 0 otherwise. -/
def date_check_agent (ρ : AgentEnv) (article : Str) : Except PyErr DateResult :=
  match ρ.dateCall article with
  | .error e => .error e
  | .ok date_result =>
    let truthy := match date_result.date with
      | some d => !d.isEmpty
      | none => false
    .ok { date_result with confidence_score := if truthy then 100 else 0 }

/-- `evidence_check.evidence_check_agent`: the validated collaborator
reply is returned unchanged. -/
def evidence_check_agent (ρ : AgentEnv) (url central_claim : Str) :
    Except PyErr EvidenceResult :=
  ρ.evidenceCall url central_claim

/-- `usefullness_check.usefulness_check_agent`: the validated collaborator
reply is returned unchanged. -/
def usefulness_check_agent (ρ : AgentEnv) (url research_topic : Str) :
    Except PyErr UsefulnessResult :=
  ρ.usefulnessCall url research_topic

/-- `author_org_check.author_check_agent`: after validation the code sets
`confidence_score := expertise_alignment_score - 10 * len(bias_indicators)`;
when `expertise_alignment_score` is absent the subtraction raises
`TypeError`. -/
def author_check_agent (ρ : AgentEnv) (article central_claim topic : Str) :
    Except PyErr AuthorResult :=
  match ρ.authorCall article central_claim topic with
  | .error e => .error e
  | .ok author_result =>
    match author_result.expertise_alignment_score with
    | none => .error PyErr.typeError
    | some e =>
      .ok { author_result with
              confidence_score := (e : ℚ) - 10 * author_result.bias_indicators.length }

/-- `manager.manager_synthesis_agent`: builds the synthesis prompt from
all upstream results and returns the validated collaborator reply
unchanged — no check is applied to `recommendation` or to the scores. -/
def manager_synthesis_agent (ρ : AgentEnv) (url : Str) (claim_res : claim_result)
    (citation_res : CitationResult) (bias_res : BiasCheckResult)
    (author_res : AuthorResult) (ev_res : EvidenceResult)
    (usefulness_res : UsefulnessResult) (date_res : DateResult) :
    Except PyErr ManagerSynthesisResult :=
  ρ.synthesisCall url claim_res citation_res bias_res author_res ev_res
    usefulness_res date_res

/-- Parameter count of `date_check_agent` as declared in
`backend/agents/date_check.py`: `(client, article)`. -/
def DATE_CHECK_PARAM_COUNT : Nat := 2

/-- Argument count of the `date_check_agent(client, input_text, topic)`
call inside `manager_agent` in `backend/agents/manager.py`. -/
def DATE_CHECK_CALL_ARG_COUNT : Nat := 3

/-- The keyed result collection `manager_agent` returns. -/
structure PipelineResults where
  claim : claim_result
  citations : CitationResult
  bias : BiasCheckResult
  author : AuthorResult
  evidence : EvidenceResult
  usefulness : UsefulnessResult
  date : DateResult
  synthesis : ManagerSynthesisResult
deriving DecidableEq

/-- `manager.manager_agent`.  Phase ordering follows the source: the claim
agent runs first; then the three Phase-1 coroutine call expressions are
evaluated for `asyncio.gather` — evaluating
`date_check_agent(client, input_text, topic)` raises `TypeError` at the
call site because the callee declares two parameters; then (were that call
well-formed) the gathered Phase-1 tasks, the gathered Phase-2 tasks and
the synthesis.  Sequential monadic sequencing is an equivalent
deterministic model of `asyncio.gather`'s join-and-propagate-first-error
semantics for the error/result behaviour modelled here. -/
def manager_agent (ρ : AgentEnv) (input_text topic : Str) :
    Except PyErr PipelineResults := do
  let claim_res ← claim_agent ρ input_text
  let central_claim := claim_res.central_claim
  if DATE_CHECK_CALL_ARG_COUNT ≠ DATE_CHECK_PARAM_COUNT then
    throw PyErr.typeError
  let citation_res ← citation_check_agent ρ input_text
  let bias_res ← bias_check_agent ρ input_text
  let date_res ← date_check_agent ρ input_text
  let ev_res ← evidence_check_agent ρ input_text central_claim
  let usefulness_res ← usefulness_check_agent ρ input_text topic
  let author_res ← author_check_agent ρ input_text central_claim topic
  let synthesis ← manager_synthesis_agent ρ input_text claim_res citation_res
    bias_res author_res ev_res usefulness_res date_res
  return { claim := claim_res, citations := citation_res, bias := bias_res,
           author := author_res, evidence := ev_res,
           usefulness := usefulness_res, date := date_res,
           synthesis := synthesis }

/-! ## The app layer (`backend/app.py`). -/

/-- `clamp_score(value, default)`: clamp a number into 0..100; a `None`
value (`float` raising) yields the default. -/
def clamp_score (value : Option ℚ) (dflt : ℚ) : ℚ :=
  match value with
  | none => dflt
  | some x => max 0 (min 100 x)

/-- Python `round(q)`: round half to even. -/
def pyRound (q : ℚ) : ℤ :=
  let f := ⌊q⌋
  let r := q - f
  if r < 1 / 2 then f
  else if 1 / 2 < r then f + 1
  else if f % 2 = 0 then f else f + 1

/-- Python `round(q, 1)`. -/
def pyRound1 (q : ℚ) : ℚ := (pyRound (q * 10) : ℚ) / 10

/-- Decimal rendering of a natural number. -/
def natToStr (n : Nat) : Str := (toString n).data

/-- Decimal rendering of an integer. -/
def intToStr (z : ℤ) : Str := (toString z).data

/-- One-decimal fixed rendering, modelling the `:.1f` format used in the
relevancy summary (Python rounds the float half to even, modelled on the
rational). -/
def formatQ1 (q : ℚ) : Str :=
  let m := pyRound (q * 10)
  let sign : Str := if m < 0 then str "-" else []
  let a := m.natAbs
  sign ++ natToStr (a / 10) ++ str "." ++ natToStr (a % 10)

/-- `normalize_purpose`: a missing, empty or whitespace-only purpose falls
back to the default topic. -/
def normalize_purpose (purpose : Option Str) : Str :=
  match purpose with
  | none => str "general credibility analysis"
  | some p =>
    if p.isEmpty then str "general credibility analysis"
    else
      let s := pyStrip p
      if s.isEmpty then str "general credibility analysis" else s

/-- The dictionary `build_relevancy_check` returns. -/
structure RelevancyCheck where
  overall_score : ℚ
  confidence_score : ℚ
  summary : Str
  publication_date : Str
  is_current : Bool
  relevancy_notes : Str
deriving DecidableEq

/-- `build_relevancy_check`: prefer the date agent output; otherwise
derive a score from the average citation age. -/
def build_relevancy_check (date_result : DateResult)
    (citation_result : CitationResult) : RelevancyCheck :=
  let date_value := match date_result.date with
    | some s => pyStrip s
    | none => []
  let relevance_label := match date_result.relevance with
    | some s => pyStrip s
    | none => []
  let has_date_agent_output :=
    !date_value.isEmpty || !relevance_label.isEmpty || !date_result.summary.isEmpty
  if has_date_agent_output then
    let score := pyRound1 (clamp_score (some date_result.overall_score) 60)
    let confidence := pyRound1 (clamp_score (some date_result.confidence_score) 70)
    let summary :=
      if !date_result.summary.isEmpty then date_result.summary
      else str "Date relevance assessed as " ++ relevance_label ++ str "."
    let notes :=
      if !relevance_label.isEmpty then
        str "Date agent relevance label: " ++ relevance_label
      else str "Date relevance generated by date-check agent."
    { overall_score := score, confidence_score := confidence, summary := summary,
      publication_date := if !date_value.isEmpty then date_value else str "Unknown",
      is_current := 70 ≤ score, relevancy_notes := notes }
  else
    match citation_result.avg_citation_age_years with
    | none =>
      { overall_score := pyRound1 60, confidence_score := 70,
        summary := str "Publication date could not be verified precisely; relevancy appears moderate.",
        publication_date := str "Unknown", is_current := false,
        relevancy_notes := str "Insufficient citation date metadata to confidently assess freshness." }
    | some avg_age =>
      let score := clamp_score (some (100 - avg_age * 8)) 60
      let is_current := 70 ≤ score
      { overall_score := pyRound1 score, confidence_score := 70,
        summary := str "Citation recency suggests "
          ++ (if is_current then str "current" else str "mixed recency")
          ++ str " references (average age: " ++ formatQ1 avg_age ++ str " years).",
        publication_date := str "Unknown", is_current := is_current,
        relevancy_notes := str "Score is estimated from average citation age." }

/-- The dictionary `build_organization_check` returns. -/
structure OrganizationCheck where
  overall_score : ℚ
  confidence_score : ℚ
  summary : Str
  structure_quality : Str
  strengths : List Str
  weaknesses : List Str
deriving DecidableEq

/-- `build_organization_check`: derived from the author result. -/
def build_organization_check (author_result : AuthorResult) : OrganizationCheck :=
  let org_name := match author_result.organization with
    | some s => if s.isEmpty then str "Unknown organization" else s
    | none => str "Unknown organization"
  let overall_score := clamp_score
    (some (match author_result.reliability_score_estimate with
      | some r => (r : ℚ)
      | none => author_result.overall_score)) 60
  let author_strength := match author_result.author_name with
    | some n => if n.isEmpty then [] else [str "Identified author: " ++ n]
    | none => []
  let strengths := author_strength ++
    [str "Prior publication footprint: "
      ++ intToStr author_result.total_articles_found ++ str " items"]
  let weaknesses :=
    if !author_result.bias_indicators.isEmpty then
      [str "Potential author/organization bias indicators were flagged"]
    else []
  { overall_score := pyRound1 overall_score,
    confidence_score := clamp_score (some author_result.confidence_score) 65,
    summary := str "Publisher/organization context assessed as " ++ org_name ++ str ".",
    structure_quality := str "Derived from author/organization credibility signals.",
    strengths := strengths, weaknesses := weaknesses }

/-- The response dictionary `format_results` builds.  The presentation
`metadata` block (built from source-page metadata fetches and excerpt
heuristics that the spec places outside the core) is elided; every other
key is modelled. -/
structure FormattedResults where
  overall_credibility : ℤ
  bias_check : BiasCheckResult
  author_credibility : AuthorResult
  evidence_check : EvidenceResult
  usefulness_check : UsefulnessResult
  citation_check : CitationResult
  organization_check : OrganizationCheck
  relevancy_check : RelevancyCheck
  synthesis : ManagerSynthesisResult
deriving DecidableEq

/-- `format_results`: `model_dump` is the identity on the modelled
structures; only `overall_credibility` and the two derived blocks go
through `clamp_score`, the per-task results are passed through. -/
def format_results (results : PipelineResults) : FormattedResults :=
  { overall_credibility :=
      pyRound (clamp_score (some (results.synthesis.overall_credibility_score : ℚ)) 0),
    bias_check := results.bias,
    author_credibility := results.author,
    evidence_check := results.evidence,
    usefulness_check := results.usefulness,
    citation_check := results.citations,
    organization_check := build_organization_check results.author,
    relevancy_check := build_relevancy_check results.date results.citations,
    synthesis := results.synthesis }

/-- The fixed `json_error` messages of the endpoints (each constructor
stands for the exact message string of the source). -/
inductive ApiMsg
  | missingApiKey
  | missingUrl
  | couldNotExtract
  | textTooShort
  | missingFile
  | emptyFile
  | couldNotReadPdf
  | analysisFailed (e : PyErr)
deriving DecidableEq

/-- An endpoint response: the JSON payload or a `json_error` with its
HTTP status. -/
inductive ApiResp (α : Type)
  | ok (value : α)
  | err (status : Nat) (msg : ApiMsg)
deriving DecidableEq

/-- `analyze_text` (`POST /api/analyze/text`): API-key check, strip the
raw text, reject stripped input under 100 characters, run the pipeline on
the stripped text, shape the response. -/
def analyze_text (ρ : AgentEnv) (hasKey : Bool) (text purpose : Option Str) :
    ApiResp FormattedResults :=
  if !hasKey then .err 500 .missingApiKey
  else
    let article_text := pyStrip (text.getD [])
    let topic := normalize_purpose purpose
    if article_text.length < 100 then .err 400 .textTooShort
    else
      match manager_agent ρ article_text topic with
      | .error e => .err 500 (.analysisFailed e)
      | .ok results => .ok (format_results results)

/-- The document text `analyze_text` hands to `run_pipeline` when
validation passes (the slice of `analyze_text` before the pipeline call):
the stripped raw input, unchanged — no truncation and no cleaning. -/
def analyze_text_document (text : Option Str) : Option Str :=
  let article_text := pyStrip (text.getD [])
  if article_text.length < 100 then none else some article_text

/-- `analyze_url` (`POST /api/analyze/url`). -/
def analyze_url (ρ : AgentEnv) (env : FetchEnv) (hasKey : Bool)
    (url purpose : Option Str) : ApiResp FormattedResults :=
  if !hasKey then .err 500 .missingApiKey
  else
    let u := pyStrip (url.getD [])
    let topic := normalize_purpose purpose
    if u.isEmpty then .err 400 .missingUrl
    else
      match (extract_text env u).1 with
      | none => .err 422 .couldNotExtract
      | some article_text =>
        match manager_agent ρ article_text topic with
        | .error e => .err 500 (.analysisFailed e)
        | .ok results => .ok (format_results results)

/-- `analyze_pdf` (`POST /api/analyze/pdf`). -/
def analyze_pdf (ρ : AgentEnv) (env : FetchEnv) (hasKey : Bool)
    (file_bytes : Option (List Nat)) (purpose : Option Str) :
    ApiResp FormattedResults :=
  if !hasKey then .err 500 .missingApiKey
  else
    match file_bytes with
    | none => .err 400 .missingFile
    | some bytes =>
      if bytes.isEmpty then .err 400 .emptyFile
      else
        match extract_pdf_bytes env bytes with
        | none => .err 422 .couldNotReadPdf
        | some article_text =>
          match manager_agent ρ article_text (normalize_purpose purpose) with
          | .error e => .err 500 (.analysisFailed e)
          | .ok results => .ok (format_results results)

/-! ## Concrete sample data used by closed theorems and witnesses. -/

/-- A well-formed claim-agent reply. -/
def sampleClaim : claim_result :=
  { agent_name := str "claim", overall_score := 80, summary := str "A summary.",
    confidence_score := 90, central_claim := str "Reading improves attainment." }

/-- A well-formed citation-agent reply. -/
def sampleCitation : CitationResult :=
  { agent_name := str "citation", overall_score := 70, summary := str "Citations look fine.",
    confidence_score := 60, total_citations_found := 12, verified_citations := 10,
    unverified_citations := 2, broken_links := [], citation_types := [],
    flagged_citations := [], peer_reviewed_count := 9, self_citation_count := 1,
    avg_citation_age_years := none, recommendations := [] }

/-- A well-formed bias-agent reply. -/
def sampleBias : BiasCheckResult :=
  { agent_name := str "bias", overall_score := 75, summary := str "Mostly neutral.",
    confidence_score := 65, dominant_tone := str "neutral", key_indicators := [],
    affected_topics := [], recommendations := [], bias_level := str "Low" }

/-- A well-formed author-agent reply. -/
def sampleAuthor : AuthorResult :=
  { agent_name := str "author", overall_score := 72, summary := str "Credible author.",
    confidence_score := 0, author_name := some (str "J. Doe"),
    organization := some (str "Example University"), related_links := [],
    total_articles_found := 8, publication_types := [], notable_publications := [],
    expertise_alignment_score := some 85, reliability_score_estimate := some 77,
    bias_indicators := [], recommendations := [] }

/-- A well-formed evidence-agent reply. -/
def sampleEvidence : EvidenceResult :=
  { agent_name := str "evidence", overall_score := 68, summary := str "Evidence is adequate.",
    confidence_score := 64, central_claim_evaluated := str "Reading improves attainment.",
    total_evidence_found := 5, supporting_evidence_count := 4,
    contradicting_evidence_count := 0, neutral_evidence_count := 1,
    methodology_quality := str "adequate", data_quality := str "adequate",
    logical_consistency := true, gaps_identified := [], recommendations := [] }

/-- A well-formed usefulness-agent reply. -/
def sampleUsefulness : UsefulnessResult :=
  { agent_name := str "usefulness", overall_score := 66, summary := str "Useful background.",
    confidence_score := 62, research_topic := str "literacy", alignment_score := 70,
    key_arguments := [], counterarguments := [], gaps := [],
    suggested_role := str "background reading", related_topics := [],
    recommendations := [] }

/-- A well-formed date-agent reply with a date found. -/
def sampleDate : DateResult :=
  { agent_name := str "date", overall_score := 74, summary := str "Recent enough.",
    confidence_score := 50, date := some (str "January 12, 2020"),
    relevance := some (str "High Relevance") }

/-- A date-agent reply in which no publication date was found. -/
def sampleDateNoDate : DateResult :=
  { agent_name := str "date", overall_score := 55, summary := str "No date found.",
    confidence_score := 50, date := none, relevance := some (str "Moderate Relevance") }

/-- A well-formed synthesis reply using one of the prompted values. -/
def sampleSynthesis : ManagerSynthesisResult :=
  { agent_name := str "manager", overall_score := 71, summary := str "Overall solid.",
    confidence_score := 70, overall_credibility_score := 71,
    key_findings := [str "finding"], red_flags := [], strengths := [str "clear writing"],
    final_verdict := str "Fairly credible.", recommendation := str "Trustworthy" }

/-- An environment in which every collaborator call succeeds. -/
def allOkAgentEnv : AgentEnv :=
  { claimCall := fun _ => .ok sampleClaim,
    citationCall := fun _ => .ok sampleCitation,
    biasCall := fun _ => .ok sampleBias,
    dateCall := fun _ => .ok sampleDate,
    evidenceCall := fun _ _ => .ok sampleEvidence,
    usefulnessCall := fun _ _ => .ok sampleUsefulness,
    authorCall := fun _ _ _ => .ok sampleAuthor,
    synthesisCall := fun _ _ _ _ _ _ _ _ => .ok sampleSynthesis }

/-- As `allOkAgentEnv`, but the citation-agent collaborator call fails. -/
def citationFailEnv : AgentEnv :=
  { allOkAgentEnv with citationCall := fun _ => .error PyErr.taskFailure }

/-! ## Orchestrator-level lemmas and claims. -/

/-- Every `manager_agent` invocation fails: after the claim agent, the
evaluation of the Phase-1 `asyncio.gather` argument
`date_check_agent(client, input_text, topic)` raises `TypeError` (three
arguments against two parameters), so the claim agent's error propagates
when it fails and `TypeError` propagates otherwise. -/
theorem manager_agent_always_fails (ρ : AgentEnv) (t p : Str) :
    manager_agent ρ t p =
      match ρ.claimCall t with
      | .error e => .error e
      | .ok _ => .error PyErr.typeError := by
  cases h : ρ.claimCall t with
  | error e =>
    simp [manager_agent, claim_agent, h, Bind.bind, Except.bind]
  | ok cr =>
    simp [manager_agent, claim_agent, h, Bind.bind, Except.bind,
      DATE_CHECK_CALL_ARG_COUNT, DATE_CHECK_PARAM_COUNT, throw, throwThe,
      MonadExceptOf.throw]

/-- C1: a stripped raw-text input of 99 characters is rejected with the
validation error before any collaborator runs; but a 100-character input
with every collaborator call succeeding does not complete the pipeline —
`manager_agent` raises `TypeError` when it evaluates the 3-argument
`date_check_agent` call against the 2-parameter declaration, and the
operation answers `Analysis failed` (HTTP 500) instead of the keyed
result collection.  This contradicts the second half of the claim: the
code has a slip (the extra `topic` argument), recorded as a code bug. -/
theorem c1_analyze_text_validation_and_pipeline_failure :
    analyze_text allOkAgentEnv true (some (List.replicate 99 'a')) none
      = ApiResp.err 400 ApiMsg.textTooShort
    ∧ analyze_text allOkAgentEnv true (some (List.replicate 100 'a')) none
      = ApiResp.err 500 (ApiMsg.analysisFailed PyErr.typeError) := by
  constructor
  · rfl
  · rfl

/-- C4: if, after a successful claim phase, any task of the concurrent
Phase 1 or Phase 2 groups fails on the inputs the orchestrator would pass
it, then the whole pipeline invocation returns a failure and no result
collection (hence no synthesis report) is produced.  (In the current code
this holds degenerately: every invocation fails at the Phase-1 gather, see
`manager_agent_always_fails`.) -/
theorem c4_fail_fast (ρ : AgentEnv) (t p : Str) (cr : claim_result)
    (hclaim : ρ.claimCall t = .ok cr)
    (_hfail :
      (∃ e, ρ.citationCall t = .error e) ∨
      (∃ e, ρ.biasCall t = .error e) ∨
      (∃ e, ρ.dateCall t = .error e) ∨
      (∃ e, ρ.evidenceCall t cr.central_claim = .error e) ∨
      (∃ e, ρ.usefulnessCall t p = .error e) ∨
      (∃ e, ρ.authorCall t cr.central_claim p = .error e)) :
    (∃ e, manager_agent ρ t p = .error e)
    ∧ ∀ r, manager_agent ρ t p ≠ .ok r := by
  rw [manager_agent_always_fails, hclaim]
  exact ⟨⟨PyErr.typeError, rfl⟩, fun r h => by cases h⟩

/-- Witness for C4 at a concrete environment in which the citation task
fails. -/
theorem c4_fail_fast_witness :
    (∃ e, manager_agent citationFailEnv (str "text") (str "topic") = .error e)
    ∧ ∀ r, manager_agent citationFailEnv (str "text") (str "topic") ≠ .ok r :=
  c4_fail_fast citationFailEnv (str "text") (str "topic") sampleClaim rfl
    (Or.inl ⟨PyErr.taskFailure, rfl⟩)

/-! ## Confidence-score derivation (C8). -/

/-- As `allOkAgentEnv`, but the date collaborator finds no date. -/
def dateNoneEnv : AgentEnv :=
  { allOkAgentEnv with dateCall := fun _ => .ok sampleDateNoDate }

/-- C8 counterexample: when the date agent finds no publication date, the
code sets `confidence_score` to exactly 0 — not to a small non-zero floor
value as the claim states. -/
theorem c8_counterexample_zero_confidence_no_date :
    date_check_agent dateNoneEnv (str "article")
      = .ok { sampleDateNoDate with confidence_score := 0 }
    ∧ ({ sampleDateNoDate with confidence_score := 0 } : DateResult).confidence_score
      = 0 :=
  ⟨rfl, rfl⟩

/-- C8 amended: the date check sets confidence to exactly 100 when a
non-empty date was found and to exactly 0 otherwise (no non-zero floor);
the author check derives confidence as
`expertise_alignment_score - 10 * number of bias indicators`, again with
no floor. -/
theorem c8_derived_confidence_formulas :
    (∀ ρ article r, date_check_agent ρ article = Except.ok r →
      r.confidence_score = 100 ∨ r.confidence_score = 0) ∧
    (∀ ρ article r d, date_check_agent ρ article = Except.ok r →
      r.date = some d → d ≠ [] → r.confidence_score = 100) ∧
    (∀ ρ article r, date_check_agent ρ article = Except.ok r →
      r.date = none → r.confidence_score = 0) ∧
    (∀ ρ a c t r, author_check_agent ρ a c t = Except.ok r →
      ∃ e, r.expertise_alignment_score = some e
        ∧ r.confidence_score = (e : ℚ) - 10 * (r.bias_indicators.length : ℚ)) := by
  refine ⟨?_, ?_, ?_, ?_⟩
  · intro ρ article r h
    rw [date_check_agent] at h
    cases hc : ρ.dateCall article with
    | error e => rw [hc] at h; cases h
    | ok dr =>
      rw [hc] at h
      cases h
      by_cases ht : (match dr.date with
        | some d => !d.isEmpty
        | none => false) = true
      · left; simp [ht]
      · right; simp [ht]
  · intro ρ article r d h hd hne
    rw [date_check_agent] at h
    cases hc : ρ.dateCall article with
    | error e => rw [hc] at h; cases h
    | ok dr =>
      rw [hc] at h
      cases h
      simp only at hd
      rw [hd]
      simp [List.isEmpty_iff, hne]
  · intro ρ article r h hd
    rw [date_check_agent] at h
    cases hc : ρ.dateCall article with
    | error e => rw [hc] at h; cases h
    | ok dr =>
      rw [hc] at h
      cases h
      simp only at hd
      rw [hd]
      simp
  · intro ρ a c t r h
    rw [author_check_agent] at h
    cases hc : ρ.authorCall a c t with
    | error e => rw [hc] at h; cases h
    | ok ar =>
      rw [hc] at h
      dsimp only at h
      cases he : ar.expertise_alignment_score with
      | none => rw [he] at h; cases h
      | some e =>
        rw [he] at h
        cases h
        exact ⟨e, rfl, rfl⟩

/-- The date-check output on `allOkAgentEnv` (date present). -/
def sampleDateOut : DateResult := { sampleDate with confidence_score := 100 }

/-- The author-check output on `allOkAgentEnv`, with the confidence field
exactly as the code computes it. -/
def sampleAuthorOut : AuthorResult :=
  { sampleAuthor with confidence_score := ((85 : ℤ) : ℚ) - 10 * ((0 : ℕ) : ℚ) }

/-- Witness for C8 amended at `allOkAgentEnv`. -/
theorem c8_derived_confidence_formulas_witness :
    (sampleDateOut.confidence_score = 100 ∨ sampleDateOut.confidence_score = 0)
    ∧ sampleDateOut.confidence_score = 100
    ∧ (∃ e, sampleAuthorOut.expertise_alignment_score = some e
        ∧ sampleAuthorOut.confidence_score
          = (e : ℚ) - 10 * (sampleAuthorOut.bias_indicators.length : ℚ)) :=
  ⟨c8_derived_confidence_formulas.1 allOkAgentEnv (str "a") sampleDateOut rfl,
   c8_derived_confidence_formulas.2.1 allOkAgentEnv (str "a") sampleDateOut
     (str "January 12, 2020") rfl rfl (by decide),
   c8_derived_confidence_formulas.2.2.2 allOkAgentEnv (str "a") (str "c") (str "t")
     sampleAuthorOut rfl⟩

/-! ## Synthesis recommendation (C9). -/

/-- A validated synthesis reply whose recommendation is outside every
reading of the four-value set. -/
def badRecommendationSynthesis : ManagerSynthesisResult :=
  { sampleSynthesis with recommendation := str "Definitely maybe" }

/-- As `allOkAgentEnv`, but the synthesis collaborator returns the
off-enum recommendation. -/
def badSynthesisEnv : AgentEnv :=
  { allOkAgentEnv with
      synthesisCall := fun _ _ _ _ _ _ _ _ => .ok badRecommendationSynthesis }

/-- C9 counterexample: the core returns the collaborator's synthesis
unchanged even when its recommendation is outside the four-value set (in
both the spec's spellings and the prompt's spellings), so the closed-enum
constraint is not enforced by the core. -/
theorem c9_counterexample_recommendation_not_enforced :
    manager_synthesis_agent badSynthesisEnv (str "u") sampleClaim sampleCitation
      sampleBias sampleAuthor sampleEvidence sampleUsefulness sampleDate
      = .ok badRecommendationSynthesis
    ∧ badRecommendationSynthesis.recommendation ≠ str "Trustworthy"
    ∧ badRecommendationSynthesis.recommendation ≠ str "UseWithCaution"
    ∧ badRecommendationSynthesis.recommendation ≠ str "Questionable"
    ∧ badRecommendationSynthesis.recommendation ≠ str "DoNotTrust"
    ∧ badRecommendationSynthesis.recommendation ≠ str "Use with caution"
    ∧ badRecommendationSynthesis.recommendation ≠ str "Do not trust" := by
  refine ⟨rfl, ?_, ?_, ?_, ?_, ?_, ?_⟩ <;> decide

/-- C9 amended: the synthesis step is a pure passthrough of the validated
collaborator reply — the core applies no constraint to `recommendation`
(or to any other field) beyond schema validation. -/
theorem c9_synthesis_passthrough (ρ : AgentEnv) (u : Str) (c : claim_result)
    (ci : CitationResult) (b : BiasCheckResult) (a : AuthorResult)
    (e : EvidenceResult) (us : UsefulnessResult) (d : DateResult)
    (r : ManagerSynthesisResult)
    (h : manager_synthesis_agent ρ u c ci b a e us d = .ok r) :
    ρ.synthesisCall u c ci b a e us d = .ok r
    ∧ (ρ.synthesisCall u c ci b a e us d).map (fun x => x.recommendation)
      = .ok r.recommendation := by
  refine ⟨h, ?_⟩
  rw [show ρ.synthesisCall u c ci b a e us d = .ok r from h]
  rfl

/-- Witness for C9 amended at `allOkAgentEnv`. -/
theorem c9_synthesis_passthrough_witness :
    allOkAgentEnv.synthesisCall (str "u") sampleClaim sampleCitation sampleBias
      sampleAuthor sampleEvidence sampleUsefulness sampleDate = .ok sampleSynthesis
    ∧ (allOkAgentEnv.synthesisCall (str "u") sampleClaim sampleCitation sampleBias
        sampleAuthor sampleEvidence sampleUsefulness sampleDate).map
        (fun x => x.recommendation) = .ok sampleSynthesis.recommendation :=
  c9_synthesis_passthrough allOkAgentEnv (str "u") sampleClaim sampleCitation
    sampleBias sampleAuthor sampleEvidence sampleUsefulness sampleDate
    sampleSynthesis rfl

/-! ## Score clamping in the response (C3). -/

/-- A validated bias reply with an out-of-range overall score. -/
def bias150 : BiasCheckResult := { sampleBias with overall_score := 150 }

/-- A complete pipeline result collection carrying the out-of-range bias
score. -/
def resultsBias150 : PipelineResults :=
  { claim := sampleClaim, citations := sampleCitation, bias := bias150,
    author := sampleAuthor, evidence := sampleEvidence,
    usefulness := sampleUsefulness, date := sampleDate,
    synthesis := sampleSynthesis }

/-- C3 counterexample: the response handed to the caller carries the bias
task's `overall_score` of 150 unchanged — the core does not clamp the
per-task result scores before returning. -/
theorem c3_counterexample_bias_score_unclamped :
    (format_results resultsBias150).bias_check.overall_score = 150
    ∧ ¬ ((format_results resultsBias150).bias_check.overall_score ≤ 100) :=
  ⟨rfl, by decide⟩

/-- `pyRound` keeps a value of `[0, 100]` inside `0..100`. -/
theorem pyRound_bounds (q : ℚ) (h0 : 0 ≤ q) (h100 : q ≤ 100) :
    0 ≤ pyRound q ∧ pyRound q ≤ 100 := by
  have hfl : (⌊q⌋ : ℚ) ≤ q := Int.floor_le q
  have hf0 : 0 ≤ ⌊q⌋ := Int.le_floor.2 (by exact_mod_cast h0)
  have hf100 : ⌊q⌋ ≤ 100 := by
    have h := Int.floor_le_floor (α := ℚ) h100
    simpa using h
  by_cases h1 : q - (⌊q⌋ : ℚ) < 1 / 2
  · simp only [pyRound]
    rw [if_pos h1]
    exact ⟨hf0, hf100⟩
  · by_cases h2 : 1 / 2 < q - (⌊q⌋ : ℚ)
    · simp only [pyRound]
      rw [if_neg h1, if_pos h2]
      refine ⟨by omega, ?_⟩
      by_contra hcon
      have hq : ⌊q⌋ = 100 := by omega
      rw [hq] at h2
      norm_num at h2
      linarith
    · simp only [pyRound]
      rw [if_neg h1, if_neg h2]
      by_cases hpar : ⌊q⌋ % 2 = 0
      · rw [if_pos hpar]
        exact ⟨hf0, hf100⟩
      · rw [if_neg hpar]
        refine ⟨by omega, ?_⟩
        omega

/-- `clamp_score` of a present value lies in `[0, 100]`. -/
theorem clamp_score_bounds (x : ℚ) (d : ℚ) :
    0 ≤ clamp_score (some x) d ∧ clamp_score (some x) d ≤ 100 := by
  simp only [clamp_score]
  constructor
  · exact le_max_left 0 _
  · rw [max_le_iff]
    exact ⟨by norm_num, min_le_left 100 x⟩

/-- C3 amended: only the derived `overall_credibility` (and the derived
relevancy and organization blocks) pass through `clamp_score`; every
per-task analysis result is placed in the response unchanged, with
whatever scores the collaborator produced. -/
theorem c3_format_results_partial_clamping (results : PipelineResults) :
    0 ≤ (format_results results).overall_credibility
    ∧ (format_results results).overall_credibility ≤ 100
    ∧ (format_results results).bias_check = results.bias
    ∧ (format_results results).author_credibility = results.author
    ∧ (format_results results).evidence_check = results.evidence
    ∧ (format_results results).usefulness_check = results.usefulness
    ∧ (format_results results).citation_check = results.citations
    ∧ (format_results results).synthesis = results.synthesis := by
  have hb := clamp_score_bounds
    ((results.synthesis.overall_credibility_score : ℚ)) 0
  have hr := pyRound_bounds _ hb.1 hb.2
  exact ⟨hr.1, hr.2, rfl, rfl, rfl, rfl, rfl, rfl⟩

/-! ## Quality-gate coverage (C2). -/

/-- A PDF-shaped URL on a scholarly-publisher domain. -/
def urlSpringerPdf : Str := str "https://link.springer.com/content/pdf/x.pdf"

/-- A 150-character page text: over the 100-character PDF minimum, far
under the 1200-character scholarly threshold. -/
def shortPdfText : Str := List.replicate 150 'b'

/-- A successful PDF response whose body carries the magic bytes. -/
def shortPdfResp : HttpResp :=
  { status := 200, contentType := str "application/pdf", content := magicPDF,
    containerText := none, fullText := [], pdfLinks := [],
    respUrl := urlSpringerPdf }

/-- An environment serving the short PDF at the scholarly URL. -/
def scholarlyPdfEnv : FetchEnv :=
  { isFile := fun _ => false, readFile := fun _ => none,
    get := fun u => if u = urlSpringerPdf then some shortPdfResp else none,
    readPdf := fun _ => some [shortPdfText] }

/-- C2 counterexample: for a PDF-shaped URL on a scholarly domain the
engine returns 150 characters of text — far below the 1200-character
scholarly threshold — because the direct-PDF strategy bypasses the
quality gate (only the 100-character PDF minimum applies). -/
theorem c2_counterexample_pdf_route_below_scholarly_threshold :
    is_scholarly_url urlSpringerPdf = true
    ∧ (extract_text scholarlyPdfEnv urlSpringerPdf).1 = some shortPdfText
    ∧ strippedLen shortPdfText < MIN_TEXT_LENGTH_SCHOLARLY := by
  refine ⟨by decide, by decide, by decide⟩

/-- Which strategy produced a basic-chain success, and what it
guarantees: the route tag matches the producing extractor, and the two
gated routes carry a passed quality gate. -/
theorem extract_text_basicR_spec (env : FetchEnv) (url t : Str)
    (r : Route) (tr : List Str)
    (h : extract_text_basicR env url = (some (t, r), tr)) :
    (r = Route.arxiv ∧ (extract_from_arxiv env url).1 = some t) ∨
    (r = Route.directPdf ∧ (extract_from_pdf env url).1 = some t) ∨
    (r = Route.html ∧ (extract_from_html env url).1 = some t
      ∧ has_sufficient_text url t = true) ∨
    (r = Route.lastResortPdf ∧ (extract_from_pdf env url).1 = some t
      ∧ has_sufficient_text url t = true) := by
  dsimp only [extract_text_basicR] at h
  split at h
  · rename_i text harx
    simp only [Prod.mk.injEq, Option.some.injEq] at h
    obtain ⟨⟨hte, hre⟩, -⟩ := h
    revert harx
    split
    · intro harx
      exact Or.inl ⟨hre.symm, hte ▸ harx⟩
    · intro harx; cases harx
  · split at h
    · rename_i text hpdf
      simp only [Prod.mk.injEq, Option.some.injEq] at h
      obtain ⟨⟨hte, hre⟩, -⟩ := h
      revert hpdf
      split
      · intro hpdf
        exact Or.inr (Or.inl ⟨hre.symm, hte ▸ hpdf⟩)
      · intro hpdf; cases hpdf
    · split at h
      · rename_i text hhtml
        simp only [Prod.mk.injEq, Option.some.injEq] at h
        obtain ⟨⟨hte, hre⟩, -⟩ := h
        revert hhtml
        split
        · rename_i text0 hsplit
          split
          · rename_i hsuff
            intro hh
            cases hh
            exact Or.inr (Or.inr (Or.inl ⟨hre.symm, hte ▸ hsplit, hte ▸ hsuff⟩))
          · intro hh; cases hh
        · intro hh; cases hh
      · split at h
        · rename_i text hlast
          split at h
          · rename_i hsuff
            simp only [Prod.mk.injEq, Option.some.injEq] at h
            obtain ⟨⟨hte, hre⟩, -⟩ := h
            exact Or.inr (Or.inr (Or.inr ⟨hre.symm, hte ▸ hlast, hte ▸ hsuff⟩))
          · cases h
        · cases h

/-- A passed quality gate means the stripped text reaches the
domain-class threshold. -/
theorem gate_reaches_threshold (url t : Str)
    (h : has_sufficient_text url t = true) :
    (if is_scholarly_url url then MIN_TEXT_LENGTH_SCHOLARLY
     else MIN_TEXT_LENGTH_GENERAL) ≤ strippedLen t := by
  rw [has_sufficient_text] at h
  simp only [Bool.not_eq_eq_eq_not, Bool.not_true, decide_eq_false_iff_not,
    Nat.not_lt] at h
  exact h

/-- C2 amended: the domain-class threshold is guaranteed only on the
gated strategies of the basic chain — the HTML route and the last-resort
PDF route — whose returned text always passes `has_sufficient_text`.  The
arXiv and direct-PDF routes (and the Wiley adapter) can return shorter
text. -/
theorem c2_gated_routes_meet_threshold (env : FetchEnv) (url t : Str)
    (r : Route) (tr : List Str)
    (h : extract_text_basicR env url = (some (t, r), tr))
    (hr : r = Route.html ∨ r = Route.lastResortPdf) :
    (if is_scholarly_url url then MIN_TEXT_LENGTH_SCHOLARLY
     else MIN_TEXT_LENGTH_GENERAL) ≤ strippedLen t := by
  rcases extract_text_basicR_spec env url t r tr h with
    ⟨hre, -⟩ | ⟨hre, -⟩ | ⟨-, -, hgate⟩ | ⟨-, -, hgate⟩
  · rcases hr with hh | hh <;> (rw [hre] at hh; exact absurd hh (by decide))
  · rcases hr with hh | hh <;> (rw [hre] at hh; exact absurd hh (by decide))
  · exact gate_reaches_threshold url t hgate
  · exact gate_reaches_threshold url t hgate

/-- A general-domain HTML page URL. -/
def urlGeneralHtml : Str := str "http://example.com/page"

/-- 300 characters of container text: over the 250-character general
threshold. -/
def bigHtmlText : Str := List.replicate 300 'c'

/-- The HTML response for the general-domain page. -/
def generalHtmlResp : HttpResp :=
  { status := 200, contentType := str "text/html", content := [],
    containerText := some bigHtmlText, fullText := [], pdfLinks := [],
    respUrl := urlGeneralHtml }

/-- An environment serving the general-domain HTML page. -/
def generalHtmlEnv : FetchEnv :=
  { isFile := fun _ => false, readFile := fun _ => none,
    get := fun u => if u = urlGeneralHtml then some generalHtmlResp else none,
    readPdf := fun _ => none }

/-- Witness for C2 amended: the HTML route on the general-domain page
meets its threshold. -/
theorem c2_gated_routes_meet_threshold_witness :
    (if is_scholarly_url urlGeneralHtml then MIN_TEXT_LENGTH_SCHOLARLY
     else MIN_TEXT_LENGTH_GENERAL) ≤ strippedLen bigHtmlText :=
  c2_gated_routes_meet_threshold generalHtmlEnv urlGeneralHtml bigHtmlText
    Route.html [urlGeneralHtml] (by decide) (Or.inl rfl)

/-! ## The truncation cap over every acquisition strategy (C5). -/

/-- Any text `extract_pdf_bytes` returns is at most the cap long. -/
theorem extract_pdf_bytes_len (env : FetchEnv) (bs : List Nat) (t : Str)
    (h : extract_pdf_bytes env bs = some t) : t.length ≤ MAX_TEXT_LENGTH := by
  unfold extract_pdf_bytes at h
  split at h
  · cases h
  · split at h
    · cases h
    · dsimp only at h
      split at h
      · cases h
      · rw [Option.some.injEq] at h
        rw [← h]
        simp [List.length_take]

/-- Any text `extract_from_pdf` returns is at most the cap long. -/
theorem extract_from_pdf_len (env : FetchEnv) (url t : Str)
    (h : (extract_from_pdf env url).1 = some t) : t.length ≤ MAX_TEXT_LENGTH := by
  unfold extract_from_pdf at h
  dsimp only at h
  split at h
  · cases h
  · split at h
    · cases h
    · exact extract_pdf_bytes_len env _ t h

/-- Any text `extract_from_html` returns is at most the cap long. -/
theorem extract_from_html_len (env : FetchEnv) (url t : Str)
    (h : (extract_from_html env url).1 = some t) : t.length ≤ MAX_TEXT_LENGTH := by
  unfold extract_from_html at h
  dsimp only at h
  split at h
  · cases h
  · split at h
    · cases h
    · split at h
      · cases h
      · split at h
        · cases h
        · split at h
          · cases h
          · split at h
            · cases h
            · rw [Option.some.injEq] at h
              rw [← h]
              simp [List.length_take]

/-- Any text `extract_from_arxiv` returns is at most the cap long. -/
theorem extract_from_arxiv_len (env : FetchEnv) (url t : Str)
    (h : (extract_from_arxiv env url).1 = some t) : t.length ≤ MAX_TEXT_LENGTH := by
  unfold extract_from_arxiv at h
  split at h
  · exact extract_from_pdf_len env _ t h
  · cases h

/-- Any text `extract_text_basic` returns is at most the cap long. -/
theorem extract_text_basic_len (env : FetchEnv) (url t : Str)
    (h : (extract_text_basic env url).1 = some t) : t.length ≤ MAX_TEXT_LENGTH := by
  unfold extract_text_basic at h
  dsimp only at h
  rw [Option.map_eq_some'] at h
  obtain ⟨⟨t', r⟩, hr, hte⟩ := h
  have hfull : extract_text_basicR env url
      = (some (t', r), (extract_text_basicR env url).2) := by
    rw [← hr]
  rw [← hte]
  rcases extract_text_basicR_spec env url t' r _ hfull with
    ⟨-, hx⟩ | ⟨-, hx⟩ | ⟨-, hx, -⟩ | ⟨-, hx, -⟩
  · exact extract_from_arxiv_len env url t' hx
  · exact extract_from_pdf_len env url t' hx
  · exact extract_from_html_len env url t' hx
  · exact extract_from_pdf_len env url t' hx

/-- Any text the Wiley link loop returns is at most the cap long. -/
theorem wileyTryLinks_len (env : FetchEnv) (links : List Str) (t : Str)
    (h : (wileyTryLinks env links).1 = some t) : t.length ≤ MAX_TEXT_LENGTH := by
  induction links with
  | nil => cases h
  | cons link rest ih =>
    unfold wileyTryLinks at h
    dsimp only at h
    split at h
    · exact ih h
    · split at h
      · exact ih h
      · split at h
        · rename_i text hepb
          rw [Option.some.injEq] at h
          rw [← h]
          exact extract_pdf_bytes_len env _ text hepb
        · exact ih h

/-- Any text the Wiley candidate loop returns is at most the cap long. -/
theorem wileyTryCandidates_len (env : FetchEnv) (cands : List Str) (t : Str)
    (h : (wileyTryCandidates env cands).1 = some t) : t.length ≤ MAX_TEXT_LENGTH := by
  induction cands with
  | nil => cases h
  | cons cand rest ih =>
    unfold wileyTryCandidates at h
    dsimp only at h
    split at h
    · exact ih h
    · split at h
      · exact ih h
      · split at h
        · split at h
          · rename_i text hepb
            rw [Option.some.injEq] at h
            rw [← h]
            exact extract_pdf_bytes_len env _ text hepb
          · exact ih h
        · split at h
          · split at h
            · rw [Option.some.injEq] at h
              rw [← h]
              simp [List.length_take]
            · split at h
              · rename_i text hlinks
                rw [Option.some.injEq] at h
                rw [← h]
                exact wileyTryLinks_len env _ text hlinks
              · exact ih h
          · exact ih h

/-- Any text the Wiley adapter returns is at most the cap long. -/
theorem extract_from_wiley_len (env : FetchEnv) (url t : Str)
    (h : (extract_from_wiley env url).1 = some t) : t.length ≤ MAX_TEXT_LENGTH := by
  unfold extract_from_wiley at h
  split at h
  · cases h
  · split at h
    · cases h
    · exact wileyTryCandidates_len env _ t h

/-- Any text the Springer link loop returns is at most the cap long. -/
theorem springerTryLinks_len (env : FetchEnv) (links : List Str) (t : Str)
    (h : (springerTryLinks env links).1 = some t) : t.length ≤ MAX_TEXT_LENGTH := by
  induction links with
  | nil => cases h
  | cons link rest ih =>
    unfold springerTryLinks at h
    dsimp only at h
    split at h
    · exact ih h
    · split at h
      · exact ih h
      · split at h
        · rename_i text hepb
          split at h
          · rw [Option.some.injEq] at h
            rw [← h]
            exact extract_pdf_bytes_len env _ text hepb
          · exact ih h
        · exact ih h

/-- Any text the Springer candidate loop returns is at most the cap
long. -/
theorem springerTryCandidates_len (env : FetchEnv) (cands : List Str) (t : Str)
    (h : (springerTryCandidates env cands).1 = some t) :
    t.length ≤ MAX_TEXT_LENGTH := by
  induction cands with
  | nil => cases h
  | cons cand rest ih =>
    unfold springerTryCandidates at h
    dsimp only at h
    split at h
    · exact ih h
    · split at h
      · exact ih h
      · split at h
        · split at h
          · rename_i text hepb
            split at h
            · rw [Option.some.injEq] at h
              rw [← h]
              exact extract_pdf_bytes_len env _ text hepb
            · exact ih h
          · exact ih h
        · split at h
          · split at h
            · rename_i text hhtml
              rw [Option.some.injEq] at h
              rw [← h]
              split at hhtml
              · rename_i text0 hh
                split at hhtml
                · rw [Option.some.injEq] at hhtml
                  rw [← hhtml]
                  exact extract_from_html_len env _ text0 hh
                · cases hhtml
              · cases hhtml
            · split at h
              · rename_i text hlinks
                rw [Option.some.injEq] at h
                rw [← h]
                exact springerTryLinks_len env _ text hlinks
              · exact ih h
          · exact ih h

/-- Any text the Springer adapter returns is at most the cap long. -/
theorem extract_from_springer_len (env : FetchEnv) (url t : Str)
    (h : (extract_from_springer env url).1 = some t) : t.length ≤ MAX_TEXT_LENGTH := by
  unfold extract_from_springer at h
  split at h
  · cases h
  · split at h
    · cases h
    · exact springerTryCandidates_len env _ t h

/-- Any text the fallback-URL loop returns is at most the cap long. -/
theorem tryFallbackUrls_len (env : FetchEnv) (us : List Str) (t : Str)
    (h : (tryFallbackUrls env us).1 = some t) : t.length ≤ MAX_TEXT_LENGTH := by
  induction us with
  | nil => cases h
  | cons u rest ih =>
    unfold tryFallbackUrls at h
    dsimp only at h
    split at h
    · rename_i text hbasic
      rw [Option.some.injEq] at h
      rw [← h]
      exact extract_text_basic_len env u text hbasic
    · exact ih h

/-- C5 cap lemma: any text `extract_text` returns is at most the cap
long. -/
theorem extract_text_len (env : FetchEnv) (url t : Str)
    (h : (extract_text env url).1 = some t) : t.length ≤ MAX_TEXT_LENGTH := by
  unfold extract_text at h
  dsimp only at h
  split at h
  · rename_i text hloc
    rw [Option.some.injEq] at h
    rw [← h]
    revert hloc
    split
    · intro hloc
      unfold extract_from_local_pdf at hloc
      revert hloc
      split
      · intro hloc; cases hloc
      · intro hloc
        exact extract_pdf_bytes_len env _ text hloc
    · intro hloc; cases hloc
  · split at h
    · rename_i text hbasic
      rw [Option.some.injEq] at h
      rw [← h]
      exact extract_text_basic_len env url text hbasic
    · split at h
      · rename_i text hwiley
        rw [Option.some.injEq] at h
        rw [← h]
        exact extract_from_wiley_len env url text hwiley
      · split at h
        · rename_i text hspr
          rw [Option.some.injEq] at h
          rw [← h]
          exact extract_from_springer_len env url text hspr
        · exact tryFallbackUrls_len env _ t h

/-- `dropWhile` keeps a replicated list whose element fails the
predicate. -/
theorem dropWhile_replicate_of_false (p : Char → Bool) (c : Char)
    (h : p c = false) (n : Nat) :
    List.dropWhile p (List.replicate n c) = List.replicate n c := by
  induction n with
  | zero => rfl
  | succ k ih =>
    rw [List.replicate_succ, List.dropWhile_cons, h]
    simp

/-- `pyStrip` is the identity on a replicated non-whitespace character. -/
theorem pyStrip_replicate (c : Char) (h : isPySpace c = false) (n : Nat) :
    pyStrip (List.replicate n c) = List.replicate n c := by
  unfold pyStrip dropL dropR
  rw [dropWhile_replicate_of_false _ _ h, List.reverse_replicate,
    dropWhile_replicate_of_false _ _ h, List.reverse_replicate]

/-- 200001 characters of raw text: above the truncation cap. -/
def hugeText : Str := List.replicate 200001 'a'

/-- C5 counterexample: the raw-text operation hands the pipeline a
document of 200001 characters — the stripped input unchanged, above the
200000-character truncation cap. -/
theorem c5_counterexample_raw_text_exceeds_cap :
    analyze_text_document (some hugeText) = some hugeText
    ∧ MAX_TEXT_LENGTH < hugeText.length := by
  constructor
  · unfold analyze_text_document hugeText
    dsimp only [Option.getD]
    rw [pyStrip_replicate 'a' (by decide) 200001, List.length_replicate]
    norm_num
  · unfold hugeText MAX_TEXT_LENGTH
    rw [List.length_replicate]
    norm_num

/-- C5 amended: every document produced by the URL acquisition engine is
at most 200000 characters long; but the raw-text operation performs no
truncation and no blank-line normalization — its document is exactly the
stripped input (of any length at least 100). -/
theorem c5_url_documents_capped_raw_text_only_stripped :
    (∀ env url t, (extract_text env url).1 = some t → t.length ≤ MAX_TEXT_LENGTH)
    ∧ (∀ text d, analyze_text_document text = some d →
        d = pyStrip (text.getD []) ∧ 100 ≤ d.length) := by
  constructor
  · intro env url t h
    exact extract_text_len env url t h
  · intro text d h
    unfold analyze_text_document at h
    dsimp only at h
    split at h
    · cases h
    · rename_i hlen
      rw [Option.some.injEq] at h
      rw [← h]
      exact ⟨rfl, by omega⟩

/-- Witness for C5 amended: the PDF document of the scholarly environment
is under the cap, and a 300-character raw text passes through exactly
stripped. -/
theorem c5_url_documents_capped_witness :
    shortPdfText.length ≤ MAX_TEXT_LENGTH
    ∧ (bigHtmlText = pyStrip ((some bigHtmlText).getD []) ∧ 100 ≤ bigHtmlText.length) :=
  ⟨c5_url_documents_capped_raw_text_only_stripped.1 scholarlyPdfEnv urlSpringerPdf
      shortPdfText (by decide),
   c5_url_documents_capped_raw_text_only_stripped.2 (some bigHtmlText) bigHtmlText
      (by decide)⟩

/-! ## PDF extraction contract (C6). -/

/-- One extracted page of 200001 characters. -/
def bigPage : Str := List.replicate 200001 'a'

/-- An environment whose PDF reader yields the one long page. -/
def bigPdfEnv : FetchEnv :=
  { isFile := fun _ => false, readFile := fun _ => none,
    get := fun _ => none, readPdf := fun _ => some [bigPage] }

/-- C6 counterexample: on a one-page PDF whose page text is 200001
characters, the returned text is the page text truncated to 200000
characters — not the (untruncated) join of the per-page texts the claim
describes. -/
theorem c6_counterexample_truncated_join :
    extract_pdf_bytes bigPdfEnv magicPDF = some (List.replicate 200000 'a')
    ∧ List.replicate 200000 'a' ≠ joinSep (str "\n\n") [bigPage] := by
  constructor
  · unfold extract_pdf_bytes
    rw [if_neg (by decide : ¬ (List.take 5 magicPDF ≠ magicPDF))]
    show (match bigPdfEnv.readPdf magicPDF with
      | none => none
      | some pages =>
        let text_parts := pages.filter (fun p => !p.isEmpty)
        let text := joinSep (str "\n\n") text_parts
        if strippedLen text < 100 then none
        else some (text.take MAX_TEXT_LENGTH)) = some (List.replicate 200000 'a')
    have hne : (!bigPage.isEmpty) = true := by decide
    dsimp only [bigPdfEnv]
    rw [List.filter_cons, hne, List.filter_nil]
    have hfil : (if true = true then [bigPage] else ([] : List Str)) = [bigPage] := rfl
    rw [hfil]
    have hjoin : joinSep (str "\n\n") [bigPage] = bigPage := rfl
    rw [hjoin]
    have hstrip : strippedLen bigPage = 200001 := by
      unfold strippedLen bigPage
      rw [pyStrip_replicate 'a' (by decide), List.length_replicate]
    rw [hstrip, if_neg (by norm_num)]
    unfold bigPage MAX_TEXT_LENGTH
    rw [List.take_replicate]
    norm_num
  · intro h
    have hl := congrArg List.length h
    simp only [joinSep, bigPage, List.length_replicate] at hl
    omega

/-- C6 amended: the extraction fails on any input without the `%PDF-`
magic signature; on success the returned text is the join of the
*non-empty* per-page texts with the blank-line separator, *truncated to
the 200000-character cap*, and the joined text (checked before
truncation) has stripped length at least 100. -/
theorem c6_pdf_extraction_contract :
    (∀ env : FetchEnv, ∀ bs : List Nat, bs.take 5 ≠ magicPDF →
      extract_pdf_bytes env bs = none)
    ∧ (∀ env : FetchEnv, ∀ bs t, extract_pdf_bytes env bs = some t →
        bs.take 5 = magicPDF
        ∧ ∃ pages, env.readPdf bs = some pages
          ∧ t = (joinSep (str "\n\n")
              (pages.filter (fun p => !p.isEmpty))).take MAX_TEXT_LENGTH
          ∧ 100 ≤ strippedLen
              (joinSep (str "\n\n") (pages.filter (fun p => !p.isEmpty)))) := by
  constructor
  · intro env bs h
    unfold extract_pdf_bytes
    rw [if_pos h]
  · intro env bs t h
    unfold extract_pdf_bytes at h
    split at h
    · cases h
    · rename_i hmagic
      split at h
      · cases h
      · rename_i pages hpages
        dsimp only at h
        split at h
        · cases h
        · rename_i hlen
          rw [Option.some.injEq] at h
          exact ⟨Decidable.not_not.mp hmagic, pages, hpages, h.symm, by omega⟩

/-- Witness for C6 amended: a non-PDF byte string is rejected, and the
scholarly environment's short PDF satisfies the success contract. -/
theorem c6_pdf_extraction_contract_witness :
    extract_pdf_bytes bigPdfEnv [1, 2, 3] = none
    ∧ (List.take 5 magicPDF = magicPDF
       ∧ ∃ pages, scholarlyPdfEnv.readPdf magicPDF = some pages
         ∧ shortPdfText = (joinSep (str "\n\n")
             (pages.filter (fun p => !p.isEmpty))).take MAX_TEXT_LENGTH
         ∧ 100 ≤ strippedLen
             (joinSep (str "\n\n") (pages.filter (fun p => !p.isEmpty)))) :=
  ⟨c6_pdf_extraction_contract.1 bigPdfEnv [1, 2, 3] (by decide),
   c6_pdf_extraction_contract.2 scholarlyPdfEnv magicPDF shortPdfText (by decide)⟩

/-! ## First fetch of an arXiv abstract URL (C7). -/

/-- The empty needle is contained in every haystack. -/
theorem containsSub_nil_left (h : Str) : containsSub [] h = true := by
  cases h <;> simp [containsSub, List.isPrefixOf]

/-- Substring containment extends to the right. -/
theorem containsSub_append_right (n a b : Str) (h : containsSub n a = true) :
    containsSub n (a ++ b) = true := by
  induction a with
  | nil =>
    have hn : n = [] := by
      cases n with
      | nil => rfl
      | cons x t => simp [containsSub, List.isEmpty] at h
    rw [hn, List.nil_append]
    exact containsSub_nil_left b
  | cons x t ih =>
    rw [List.cons_append, containsSub]
    rw [containsSub] at h
    rcases Bool.or_eq_true_iff.mp h with hp | hc
    · have hx : n.isPrefixOf ((x :: t) ++ b) = true :=
        List.isPrefixOf_iff_prefix.mpr
          ((List.isPrefixOf_iff_prefix.mp hp).trans (List.prefix_append _ b))
      rw [List.cons_append] at hx
      rw [hx]
      simp
    · rw [ih hc]
      simp

/-- Containment in a prefix gives containment in the whole. -/
theorem containsSub_of_isPrefixOf (pre url n : Str)
    (hp : pre.isPrefixOf url = true) (hc : containsSub n pre = true) :
    containsSub n url = true := by
  obtain ⟨rest, hrest⟩ := List.isPrefixOf_iff_prefix.mp hp
  rw [← hrest]
  exact containsSub_append_right n pre rest hc

/-- A recognized arXiv abstract URL contains the `arxiv.org` marker. -/
theorem arxivAbsId_contains_arxiv (url pid : Str)
    (habs : arxivAbsId url = some pid) :
    containsSub (str "arxiv.org") url = true := by
  unfold arxivAbsId at habs
  split at habs
  · rename_i hps
    exact containsSub_of_isPrefixOf _ url _ hps (by decide)
  · split at habs
    · rename_i hps
      exact containsSub_of_isPrefixOf _ url _ hps (by decide)
    · cases habs

/-- A list with a known `head?` is a cons. -/
theorem head?_some_exists {α : Type} (l : List α) (a : α) (h : l.head? = some a) :
    ∃ t, l = a :: t := by
  cases l with
  | nil => cases h
  | cons x t =>
    rw [List.head?_cons, Option.some.injEq] at h
    exact ⟨t, by rw [h]⟩

/-- On a recognized arXiv abstract URL the first URL the basic chain
fetches is the rewritten PDF URL. -/
theorem extract_text_basicR_trace_head (env : FetchEnv) (url pid : Str)
    (habs : arxivAbsId url = some pid) :
    (extract_text_basicR env url).2.head? = some (arxivPdfUrl pid) := by
  have harx := arxivAbsId_contains_arxiv url pid habs
  dsimp only [extract_text_basicR]
  rw [if_pos harx]
  simp only [extract_from_arxiv, habs]
  rcases hE : extract_from_pdf env (arxivPdfUrl pid) with ⟨o, tr⟩
  have htr : tr = [arxivPdfUrl pid] := by
    have h2 := congrArg Prod.snd hE
    dsimp only [extract_from_pdf] at h2
    exact h2.symm
  subst htr
  cases o with
  | some text => simp
  | none =>
    split
    · simp
    · split
      · simp
      · split
        · simp
        · split
          · split <;> simp
          · simp

/-- C7: for every URL matching the arXiv abstract convention (and not
taken as a local file), the acquisition engine's first fetch targets the
canonical full-text PDF URL, not the original abstract URL. -/
theorem c7_arxiv_first_fetch_rewritten (env : FetchEnv) (url pid : Str)
    (habs : arxivAbsId url = some pid) (hfile : env.isFile url = false) :
    (extract_text env url).2.head? = some (arxivPdfUrl pid) := by
  have hb := extract_text_basicR_trace_head env url pid habs
  obtain ⟨t0, ht0⟩ := head?_some_exists _ _ hb
  have hb2 : (extract_text_basic env url).2 = arxivPdfUrl pid :: t0 := by
    dsimp only [extract_text_basic]
    exact ht0
  dsimp only [extract_text]
  rw [hfile]
  simp only [Bool.false_and, if_false]
  split
  · rename_i text hloc
    cases hloc
  · split
    · simp [hb2]
    · split
      · simp [hb2]
      · split
        · simp [hb2]
        · simp [hb2]

/-- An environment reachable for the C7 witness: no file system, every
fetch fails. -/
def offlineEnv : FetchEnv :=
  { isFile := fun _ => false, readFile := fun _ => none,
    get := fun _ => none, readPdf := fun _ => none }

/-- Witness for C7 at a concrete arXiv abstract URL. -/
theorem c7_arxiv_first_fetch_rewritten_witness :
    (extract_text offlineEnv (str "https://arxiv.org/abs/2301.00001")).2.head?
      = some (arxivPdfUrl (str "2301.00001")) :=
  c7_arxiv_first_fetch_rewritten offlineEnv (str "https://arxiv.org/abs/2301.00001")
    (str "2301.00001") (by decide) rfl

/-! ## Idempotence of `clean_text` (C10)

`runOK c k cnt l` says that scanning `l` with `cnt` copies of `c` already
seen immediately before never produces a run of `c` longer than `k`. -/

/-- Run-length bound checker. -/
def runOK (c : Char) (k : Nat) : Nat → Str → Bool
  | _, [] => true
  | cnt, x :: xs =>
    if x = c then decide (cnt + 1 ≤ k) && runOK c k (cnt + 1) xs
    else runOK c k 0 xs

/-- The output of `capRunsGo` satisfies the run bound. -/
theorem runOK_capRunsGo (c : Char) (k : Nat) :
    ∀ (l : Str) (cnt : Nat), runOK c k (min cnt k) (capRunsGo c k cnt l) = true := by
  intro l
  induction l with
  | nil => intro cnt; rfl
  | cons x xs ih =>
    intro cnt
    rw [capRunsGo]
    by_cases hx : x = c
    · rw [if_pos hx]
      by_cases hcnt : cnt < k
      · have h1 : min cnt k = cnt := Nat.min_eq_left (Nat.le_of_lt hcnt)
        have h2 : min (cnt + 1) k = cnt + 1 := Nat.min_eq_left hcnt
        have h3 := ih (cnt + 1)
        rw [h2] at h3
        rw [if_pos hcnt, List.cons_append, List.nil_append, runOK, if_pos rfl, h1,
          Bool.and_eq_true, decide_eq_true_eq]
        exact ⟨hcnt, h3⟩
      · rw [if_neg hcnt, List.nil_append]
        have h1 : min cnt k = k := Nat.min_eq_right (Nat.le_of_not_lt hcnt)
        have h2 : min (cnt + 1) k = k :=
          Nat.min_eq_right (Nat.le_succ_of_le (Nat.le_of_not_lt hcnt))
        rw [h1]
        have := ih (cnt + 1)
        rw [h2] at this
        exact this
    · rw [if_neg hx, runOK, if_neg hx]
      have := ih 0
      rw [Nat.min_eq_left (Nat.zero_le k)] at this
      exact this

/-- A string within the run bound is left unchanged by `capRunsGo`. -/
theorem capRunsGo_eq_self (c : Char) (k : Nat) :
    ∀ (l : Str) (cnt : Nat), cnt ≤ k → runOK c k cnt l = true →
      capRunsGo c k cnt l = l := by
  intro l
  induction l with
  | nil => intro cnt _ _; rfl
  | cons x xs ih =>
    intro cnt hcnt h
    rw [runOK] at h
    rw [capRunsGo]
    by_cases hx : x = c
    · rw [if_pos hx] at h
      rw [Bool.and_eq_true, decide_eq_true_eq] at h
      rw [if_pos hx, if_pos (Nat.lt_of_succ_le h.1)]
      rw [List.cons_append, List.nil_append, ih (cnt + 1) h.1 h.2, hx]
    · rw [if_neg hx] at h
      rw [if_neg hx, ih 0 (Nat.zero_le k) h]

/-- `capRuns` output satisfies the run bound at counter 0. -/
theorem runOK_capRuns (c : Char) (k : Nat) (l : Str) :
    runOK c k 0 (capRuns c k l) = true := by
  have := runOK_capRunsGo c k l 0
  rw [Nat.min_eq_left (Nat.zero_le k)] at this
  exact this

/-- `capRuns` is the identity on strings within the run bound. -/
theorem capRuns_eq_self (c : Char) (k : Nat) (l : Str)
    (h : runOK c k 0 l = true) : capRuns c k l = l :=
  capRunsGo_eq_self c k l 0 (Nat.zero_le k) h

/-- The run bound is monotone downward in the counter. -/
theorem runOK_mono_cnt (c : Char) (k : Nat) :
    ∀ (l : Str) (cnt cnt' : Nat), cnt' ≤ cnt → runOK c k cnt l = true →
      runOK c k cnt' l = true := by
  intro l
  induction l with
  | nil => intro cnt cnt' _ _; rfl
  | cons x xs ih =>
    intro cnt cnt' hle h
    rw [runOK] at h ⊢
    by_cases hx : x = c
    · rw [if_pos hx] at h ⊢
      rw [Bool.and_eq_true, decide_eq_true_eq] at h
      rw [Bool.and_eq_true, decide_eq_true_eq]
      exact ⟨Nat.le_trans (Nat.succ_le_succ hle) h.1,
        ih (cnt + 1) (cnt' + 1) (Nat.succ_le_succ hle) h.2⟩
    · rw [if_neg hx] at h ⊢
      exact h

/-- The run bound is monotone upward in the bound. -/
theorem runOK_mono_k (c : Char) (k k' : Nat) (hk : k ≤ k') :
    ∀ (l : Str) (cnt : Nat), runOK c k cnt l = true → runOK c k' cnt l = true := by
  intro l
  induction l with
  | nil => intro cnt _; rfl
  | cons x xs ih =>
    intro cnt h
    rw [runOK] at h ⊢
    by_cases hx : x = c
    · rw [if_pos hx] at h ⊢
      rw [Bool.and_eq_true, decide_eq_true_eq] at h
      rw [Bool.and_eq_true, decide_eq_true_eq]
      exact ⟨Nat.le_trans h.1 hk, ih (cnt + 1) h.2⟩
    · rw [if_neg hx] at h ⊢
      exact ih 0 h

/-- A string not containing `c` satisfies any run bound at any counter. -/
theorem runOK_of_not_mem (c : Char) (k : Nat) :
    ∀ (l : Str) (cnt : Nat), c ∉ l → runOK c k cnt l = true := by
  intro l
  induction l with
  | nil => intro cnt _; rfl
  | cons x xs ih =>
    intro cnt hmem
    rw [runOK, if_neg (fun hx => hmem (by rw [hx]; exact List.mem_cons_self c xs))]
    exact ih 0 (fun hc => hmem (List.mem_cons_of_mem x hc))

/-- Crossing a non-empty block free of `c` resets the counter. -/
theorem runOK_append_not_mem (c : Char) (k : Nat) :
    ∀ (l : Str), c ∉ l → l ≠ [] → ∀ (m : Str) (cnt : Nat),
      runOK c k cnt (l ++ m) = runOK c k 0 m := by
  intro l
  induction l with
  | nil => intro _ hne; exact absurd rfl hne
  | cons x xs ih =>
    intro hmem _ m cnt
    rw [List.cons_append, runOK,
      if_neg (fun hx => hmem (by rw [hx]; exact List.mem_cons_self c xs))]
    cases xs with
    | nil => rw [List.nil_append]
    | cons y ys =>
      exact ih (fun hc => hmem (List.mem_cons_of_mem x hc)) (by simp) m 0

/-- `splitOnChar` never returns the empty list. -/
theorem splitOnChar_ne_nil (c : Char) (l : Str) : splitOnChar c l ≠ [] := by
  cases l with
  | nil => simp [splitOnChar]
  | cons x xs =>
    rw [splitOnChar]
    cases splitOnChar c xs with
    | nil => simp
    | cons s rest =>
      dsimp only
      by_cases hx : x = c
      · rw [if_pos hx]; simp
      · rw [if_neg hx]; simp

/-- Segments of `splitOnChar c` do not contain `c`. -/
theorem splitOnChar_not_mem (c : Char) :
    ∀ (l : Str) (seg : Str), seg ∈ splitOnChar c l → c ∉ seg := by
  intro l
  induction l with
  | nil =>
    intro seg hseg
    rw [splitOnChar, List.mem_singleton] at hseg
    rw [hseg]
    exact List.not_mem_nil c
  | cons x xs ih =>
    intro seg hseg
    rw [splitOnChar] at hseg
    rcases hrec : splitOnChar c xs with _ | ⟨s, rest⟩
    · exact absurd hrec (splitOnChar_ne_nil c xs)
    · rw [hrec] at hseg
      dsimp only at hseg
      by_cases hx : x = c
      · rw [if_pos hx] at hseg
        rcases List.mem_cons.mp hseg with h1 | h1
        · rw [h1]; exact List.not_mem_nil c
        · exact ih seg (hrec ▸ h1)
      · rw [if_neg hx] at hseg
        rcases List.mem_cons.mp hseg with h1 | h1
        · rw [h1]
          intro hmem
          rcases List.mem_cons.mp hmem with h2 | h2
          · exact hx h2.symm
          · exact ih s (hrec ▸ List.mem_cons_self s rest) h2
        · exact ih seg (hrec ▸ List.mem_cons_of_mem s h1)

/-- The first segment of a split inherits the run bound at the incoming
counter; the later segments satisfy it at counter 0. -/
theorem splitOnChar_runOK_parts (c c' : Char) (hcc : c ≠ c') (k : Nat) :
    ∀ (l : Str) (cnt : Nat) (s : Str) (rest : List Str),
      runOK c' k cnt l = true → splitOnChar c l = s :: rest →
      runOK c' k cnt s = true ∧ ∀ seg ∈ rest, runOK c' k 0 seg = true := by
  intro l
  induction l with
  | nil =>
    intro cnt s rest h hsplit
    rw [splitOnChar] at hsplit
    rw [List.cons.injEq] at hsplit
    obtain ⟨hs, hrest⟩ := hsplit
    rw [← hs, ← hrest]
    exact ⟨rfl, by intro seg hseg; cases hseg⟩
  | cons x xs ih =>
    intro cnt s rest h hsplit
    rw [splitOnChar] at hsplit
    rcases hrec : splitOnChar c xs with _ | ⟨s', rest'⟩
    · exact absurd hrec (splitOnChar_ne_nil c xs)
    · rw [hrec] at hsplit
      dsimp only at hsplit
      rw [runOK] at h
      by_cases hx : x = c
      · rw [if_pos hx] at hsplit
        rw [if_neg (fun he => hcc (hx ▸ he))] at h
        rw [List.cons.injEq] at hsplit
        obtain ⟨hs, hrest⟩ := hsplit
        obtain ⟨h1, h2⟩ := ih 0 s' rest' h hrec
        refine ⟨by rw [← hs]; rfl, ?_⟩
        intro seg hseg
        rw [← hrest] at hseg
        rcases List.mem_cons.mp hseg with he | he
        · rw [he]; exact h1
        · exact h2 seg he
      · rw [if_neg hx] at hsplit
        rw [List.cons.injEq] at hsplit
        obtain ⟨hs, hrest⟩ := hsplit
        by_cases hxc : x = c'
        · rw [if_pos hxc] at h
          rw [Bool.and_eq_true, decide_eq_true_eq] at h
          obtain ⟨h1, h2⟩ := ih (cnt + 1) s' rest' h.2 hrec
          refine ⟨?_, fun seg hseg => h2 seg (hrest ▸ hseg)⟩
          rw [← hs, runOK, if_pos hxc, Bool.and_eq_true, decide_eq_true_eq]
          exact ⟨h.1, h1⟩
        · rw [if_neg hxc] at h
          obtain ⟨h1, h2⟩ := ih 0 s' rest' h hrec
          refine ⟨?_, fun seg hseg => h2 seg (hrest ▸ hseg)⟩
          rw [← hs, runOK, if_neg hxc]
          exact runOK_mono_cnt c' k s' 0 0 (Nat.le_refl 0) h1

/-- Every segment of a split of a run-bounded string is run-bounded. -/
theorem splitOnChar_runOK (c c' : Char) (hcc : c ≠ c') (k : Nat) (l : Str)
    (h : runOK c' k 0 l = true) :
    ∀ seg ∈ splitOnChar c l, runOK c' k 0 seg = true := by
  rcases hrec : splitOnChar c l with _ | ⟨s, rest⟩
  · exact absurd hrec (splitOnChar_ne_nil c l)
  · obtain ⟨h1, h2⟩ := splitOnChar_runOK_parts c c' hcc k l 0 s rest h hrec
    intro seg hseg
    rcases List.mem_cons.mp hseg with he | he
    · rw [he]; exact h1
    · exact h2 seg he

/-- Joining a split restores the original string. -/
theorem joinWith_splitOnChar (c : Char) :
    ∀ l : Str, joinWith c (splitOnChar c l) = l := by
  intro l
  induction l with
  | nil => rfl
  | cons x xs ih =>
    rw [splitOnChar]
    rcases hrec : splitOnChar c xs with _ | ⟨s, rest⟩
    · exact absurd hrec (splitOnChar_ne_nil c xs)
    · rw [hrec] at ih
      dsimp only
      by_cases hx : x = c
      · rw [if_pos hx]
        rw [joinWith, List.nil_append, hx]
        rw [ih]
      · rw [if_neg hx]
        cases rest with
        | nil =>
          rw [joinWith] at ih ⊢
          rw [ih]
        | cons s2 rest2 =>
          rw [joinWith] at ih ⊢
          rw [List.cons_append, ih]

/-- Splitting a string without the separator gives one segment. -/
theorem splitOnChar_of_not_mem (c : Char) :
    ∀ l : Str, c ∉ l → splitOnChar c l = [l] := by
  intro l
  induction l with
  | nil => intro _; rfl
  | cons x xs ih =>
    intro hmem
    rw [splitOnChar, ih (fun hc => hmem (List.mem_cons_of_mem x hc))]
    dsimp only
    rw [if_neg (fun hx => hmem (by rw [hx]; exact List.mem_cons_self c xs))]

/-- Splitting after appending a separator block. -/
theorem splitOnChar_append_cons (c : Char) :
    ∀ (l m : Str), c ∉ l → splitOnChar c (l ++ c :: m) = l :: splitOnChar c m := by
  intro l
  induction l with
  | nil =>
    intro m _
    rw [List.nil_append, splitOnChar]
    rcases hrec : splitOnChar c m with _ | ⟨s, rest⟩
    · exact absurd hrec (splitOnChar_ne_nil c m)
    · dsimp only
      rw [if_pos rfl]
  | cons x xs ih =>
    intro m hmem
    rw [List.cons_append, splitOnChar,
      ih m (fun hc => hmem (List.mem_cons_of_mem x hc))]
    dsimp only
    rw [if_neg (fun hx => hmem (by rw [hx]; exact List.mem_cons_self c xs))]

/-- Splitting a join of separator-free non-empty... the list of segments
is recovered exactly. -/
theorem splitOnChar_joinWith (c : Char) :
    ∀ ls : List Str, ls ≠ [] → (∀ seg ∈ ls, c ∉ seg) →
      splitOnChar c (joinWith c ls) = ls := by
  intro ls
  induction ls with
  | nil => intro h _; exact absurd rfl h
  | cons l rest ih =>
    intro _ hmem
    cases rest with
    | nil =>
      rw [joinWith, splitOnChar_of_not_mem c l (hmem l (List.mem_cons_self l []))]
    | cons l2 rest2 =>
      rw [joinWith, splitOnChar_append_cons c l (joinWith c (l2 :: rest2))
        (hmem l (List.mem_cons_self l (l2 :: rest2)))]
      rw [ih (by simp) (fun seg hseg => hmem seg (List.mem_cons_of_mem l hseg))]

/-- `dropWhile` is idempotent. -/
theorem dropWhile_self_idem (p : Char → Bool) :
    ∀ l : Str, (l.dropWhile p).dropWhile p = l.dropWhile p := by
  intro l
  induction l with
  | nil => rfl
  | cons x xs ih =>
    rw [List.dropWhile_cons]
    by_cases hx : p x = true
    · rw [if_pos hx]
      exact ih
    · rw [if_neg hx, List.dropWhile_cons,
        if_neg (fun hc => hx hc)]

/-- The head surviving a `dropWhile` fails the predicate. -/
theorem head?_dropWhile_false (p : Char → Bool) :
    ∀ (l : Str) (a : Char), (l.dropWhile p).head? = some a → p a = false := by
  intro l
  induction l with
  | nil => intro a h; cases h
  | cons x xs ih =>
    intro a h
    rw [List.dropWhile_cons] at h
    by_cases hx : p x = true
    · rw [if_pos hx] at h
      exact ih a h
    · rw [if_neg hx, List.head?_cons, Option.some.injEq] at h
      rw [← h]
      exact Bool.eq_false_iff.mpr hx

/-- `dropWhile` is the identity when the head fails the predicate. -/
theorem dropWhile_eq_self_of_head (p : Char → Bool) (l : Str)
    (h : ∀ a, l.head? = some a → p a = false) : l.dropWhile p = l := by
  cases l with
  | nil => rfl
  | cons x xs =>
    rw [List.dropWhile_cons,
      if_neg (fun hc => by rw [h x rfl] at hc; cases hc)]

/-- `dropWhile` gives a suffix. -/
theorem suffix_dropWhile (p : Char → Bool) :
    ∀ l : Str, l.dropWhile p <:+ l := by
  intro l
  induction l with
  | nil => exact ⟨[], rfl⟩
  | cons x xs ih =>
    rw [List.dropWhile_cons]
    by_cases hx : p x = true
    · rw [if_pos hx]
      obtain ⟨t, ht⟩ := ih
      exact ⟨x :: t, by rw [List.cons_append, ht]⟩
    · rw [if_neg hx]

/-- `dropR` gives a prefix. -/
theorem dropR_isPrefixOf_self (l : Str) : dropR l <+: l := by
  obtain ⟨t, ht⟩ := suffix_dropWhile isPySpace l.reverse
  refine ⟨t.reverse, ?_⟩
  rw [dropR]
  have := congrArg List.reverse ht
  rw [List.reverse_append, List.reverse_reverse] at this
  exact this

/-- A run bound survives cutting the string on the right. -/
theorem runOK_append_left (c : Char) (k : Nat) :
    ∀ (a b : Str) (cnt : Nat), runOK c k cnt (a ++ b) = true →
      runOK c k cnt a = true := by
  intro a
  induction a with
  | nil => intro b cnt _; rfl
  | cons x xs ih =>
    intro b cnt h
    rw [List.cons_append, runOK] at h
    rw [runOK]
    by_cases hx : x = c
    · rw [if_pos hx] at h ⊢
      rw [Bool.and_eq_true, decide_eq_true_eq] at h
      rw [Bool.and_eq_true, decide_eq_true_eq]
      exact ⟨h.1, ih b (cnt + 1) h.2⟩
    · rw [if_neg hx] at h ⊢
      exact ih b 0 h

/-- A run bound transfers to a prefix. -/
theorem runOK_prefix (c : Char) (k : Nat) (l l' : Str) (cnt : Nat)
    (hp : l <+: l') (h : runOK c k cnt l' = true) : runOK c k cnt l = true := by
  obtain ⟨t, ht⟩ := hp
  rw [← ht] at h
  exact runOK_append_left c k l t cnt h

/-- A run bound holds for the tail of a string. -/
theorem runOK_cons_tail (c : Char) (k : Nat) (x : Char) (xs : Str) (cnt : Nat)
    (h : runOK c k cnt (x :: xs) = true) : runOK c k 0 xs = true := by
  rw [runOK] at h
  by_cases hx : x = c
  · rw [if_pos hx, Bool.and_eq_true] at h
    exact runOK_mono_cnt c k xs (cnt + 1) 0 (Nat.zero_le _) h.2
  · rw [if_neg hx] at h
    exact h

/-- A run bound survives a `dropWhile`. -/
theorem runOK_dropWhile (c : Char) (k : Nat) (p : Char → Bool) :
    ∀ l : Str, runOK c k 0 l = true → runOK c k 0 (l.dropWhile p) = true := by
  intro l
  induction l with
  | nil => intro _; rfl
  | cons x xs ih =>
    intro h
    rw [List.dropWhile_cons]
    by_cases hx : p x = true
    · rw [if_pos hx]
      exact ih (runOK_cons_tail c k x xs 0 h)
    · rw [if_neg hx]
      exact h

/-- A run bound survives `pyStrip`. -/
theorem runOK_pyStrip (c : Char) (k : Nat) (l : Str)
    (h : runOK c k 0 l = true) : runOK c k 0 (pyStrip l) = true := by
  rw [pyStrip]
  exact runOK_prefix c k _ _ 0 (dropR_isPrefixOf_self (dropL l))
    (runOK_dropWhile c k isPySpace l h)

/-- `hasContent` of a cons with whitespace head reduces to the tail. -/
theorem hasContent_cons_space (x : Char) (xs : Str) (hx : isPySpace x = true) :
    hasContent (x :: xs) = hasContent xs := by
  rw [hasContent, hasContent, List.any_cons, hx]
  rfl

/-- `hasContent` is preserved by a `dropWhile` on whitespace. -/
theorem hasContent_dropWhile (l : Str) (h : hasContent l = true) :
    hasContent (l.dropWhile isPySpace) = true := by
  induction l with
  | nil => cases h
  | cons x xs ih =>
    rw [List.dropWhile_cons]
    by_cases hx : isPySpace x = true
    · rw [if_pos hx]
      rw [hasContent_cons_space x xs hx] at h
      exact ih h
    · rw [if_neg hx]
      exact h

/-- `hasContent` ignores reversal. -/
theorem hasContent_reverse (l : Str) : hasContent l.reverse = hasContent l := by
  rw [hasContent, hasContent, List.any_reverse]

/-- `hasContent` survives `dropL`. -/
theorem hasContent_dropL (l : Str) (h : hasContent l = true) :
    hasContent (dropL l) = true := hasContent_dropWhile l h

/-- `hasContent` survives `dropR`. -/
theorem hasContent_dropR (l : Str) (h : hasContent l = true) :
    hasContent (dropR l) = true := by
  rw [dropR, hasContent_reverse]
  exact hasContent_dropWhile l.reverse (by rw [hasContent_reverse]; exact h)

/-- `hasContent` survives `pyStrip`. -/
theorem hasContent_pyStrip (l : Str) (h : hasContent l = true) :
    hasContent (pyStrip l) = true :=
  hasContent_dropR (dropL l) (hasContent_dropL l h)

/-- A contentful string is non-empty. -/
theorem hasContent_ne_nil (l : Str) (h : hasContent l = true) : l ≠ [] := by
  cases l with
  | nil => cases h
  | cons x xs => simp

/-- Non-membership survives a `dropWhile`. -/
theorem not_mem_dropWhile (c : Char) (p : Char → Bool) (l : Str) (h : c ∉ l) :
    c ∉ l.dropWhile p :=
  fun hc => h ((List.dropWhile_sublist p).mem hc)

/-- Non-membership survives `dropL`. -/
theorem not_mem_dropL (c : Char) (l : Str) (h : c ∉ l) : c ∉ dropL l :=
  not_mem_dropWhile c isPySpace l h

/-- Non-membership survives `dropR`. -/
theorem not_mem_dropR (c : Char) (l : Str) (h : c ∉ l) : c ∉ dropR l := by
  rw [dropR]
  intro hc
  rw [List.mem_reverse] at hc
  exact not_mem_dropWhile c isPySpace l.reverse
    (fun hr => h (List.mem_reverse.mp hr)) hc

/-- Non-membership survives `pyStrip`. -/
theorem not_mem_pyStrip (c : Char) (l : Str) (h : c ∉ l) : c ∉ pyStrip l :=
  not_mem_dropR c (dropL l) (not_mem_dropL c l h)

/-- Every character of a listed segment appears in the join. -/
theorem mem_joinWith (c : Char) :
    ∀ (ls : List Str) (seg : Str) (x : Char), seg ∈ ls → x ∈ seg →
      x ∈ joinWith c ls := by
  intro ls
  induction ls with
  | nil => intro seg x hseg _; cases hseg
  | cons l rest ih =>
    intro seg x hseg hx
    cases rest with
    | nil =>
      rw [List.mem_singleton] at hseg
      rw [joinWith]
      exact hseg ▸ hx
    | cons l2 rest2 =>
      rw [joinWith]
      rcases List.mem_cons.mp hseg with he | he
      · exact List.mem_append_left _ (he ▸ hx)
      · exact List.mem_append_right l
          (List.mem_cons_of_mem c (ih seg x he hx))

/-- A join of segments with a contentful member is contentful. -/
theorem hasContent_joinWith (c : Char) (ls : List Str) (l0 : Str)
    (h0 : l0 ∈ ls) (hc : hasContent l0 = true) :
    hasContent (joinWith c ls) = true := by
  rw [hasContent, List.any_eq_true] at hc ⊢
  obtain ⟨x, hx, hpx⟩ := hc
  exact ⟨x, mem_joinWith c ls l0 x h0 hx, hpx⟩

/-- `hasContent` of a cons when the tail already has content. -/
theorem hasContent_cons_of_tail (y : Char) (l : Str) (h : hasContent l = true) :
    hasContent (y :: l) = true := by
  rw [hasContent, List.any_cons]
  rw [hasContent] at h
  rw [h, Bool.or_true]

/-- A front strip distributes over an append whose first part has
content. -/
theorem dropWhile_append_of_hasContent :
    ∀ (l m : Str), hasContent l = true →
      (l ++ m).dropWhile isPySpace = l.dropWhile isPySpace ++ m := by
  intro l
  induction l with
  | nil => intro m h; cases h
  | cons x xs ih =>
    intro m h
    rw [List.cons_append, List.dropWhile_cons, List.dropWhile_cons]
    by_cases hx : isPySpace x = true
    · rw [if_pos hx, if_pos hx]
      rw [hasContent_cons_space x xs hx] at h
      exact ih m h
    · rw [if_neg hx, if_neg hx, List.cons_append]

/-- A back strip distributes over an append whose second part has
content. -/
theorem dropR_append_of_hasContent (m l : Str) (h : hasContent l = true) :
    dropR (m ++ l) = m ++ dropR l := by
  rw [dropR, dropR, List.reverse_append,
    dropWhile_append_of_hasContent l.reverse m.reverse
      (by rw [hasContent_reverse]; exact h),
    List.reverse_append, List.reverse_reverse]

/-- Strip trailing whitespace from the last segment only. -/
def stripEndsBack : List Str → List Str
  | [] => []
  | [l] => [dropR l]
  | l :: l' :: rest => l :: stripEndsBack (l' :: rest)

/-- Strip leading whitespace from the first segment and trailing
whitespace from the last. -/
def stripEnds : List Str → List Str
  | [] => []
  | [l] => [pyStrip l]
  | l :: l' :: rest => dropL l :: stripEndsBack (l' :: rest)

/-- `stripEndsBack` of a cons is a cons. -/
theorem stripEndsBack_cons_shape (x : Str) (xs : List Str) :
    ∃ y ys, stripEndsBack (x :: xs) = y :: ys := by
  cases xs with
  | nil => exact ⟨dropR x, [], rfl⟩
  | cons x2 xs2 => exact ⟨x, stripEndsBack (x2 :: xs2), rfl⟩

/-- The contentful join of a non-empty contentful segment list has
content. -/
theorem joinWith_hasContent_of_head (c : Char) (l : Str) (ls : List Str)
    (h : hasContent l = true) (hl : l ∈ ls) :
    hasContent (joinWith c ls) = true :=
  hasContent_joinWith c ls l hl h

/-- Back-stripping a contentful join strips only the last segment. -/
theorem dropR_joinWith (c : Char) :
    ∀ ls : List Str, (∀ seg ∈ ls, hasContent seg = true) →
      dropR (joinWith c ls) = joinWith c (stripEndsBack ls) := by
  intro ls
  induction ls with
  | nil =>
    intro _
    rw [joinWith, stripEndsBack, joinWith]
    rfl
  | cons l rest ih =>
    intro hc
    cases rest with
    | nil => rw [joinWith, stripEndsBack, joinWith]
    | cons l2 rest2 =>
      have hJ : hasContent (joinWith c (l2 :: rest2)) = true :=
        hasContent_joinWith c (l2 :: rest2) l2
          (List.mem_cons_self l2 rest2)
          (hc l2 (List.mem_cons_of_mem l (List.mem_cons_self l2 rest2)))
      have hcJ : hasContent (c :: joinWith c (l2 :: rest2)) = true :=
        hasContent_cons_of_tail c _ hJ
      rw [joinWith, dropR_append_of_hasContent l _ hcJ]
      have hsingle : dropR (c :: joinWith c (l2 :: rest2))
          = c :: dropR (joinWith c (l2 :: rest2)) := by
        have := dropR_append_of_hasContent [c] (joinWith c (l2 :: rest2)) hJ
        rw [List.singleton_append] at this
        rw [this, List.singleton_append]
      rw [hsingle, ih (fun seg hseg => hc seg (List.mem_cons_of_mem l hseg))]
      rw [stripEndsBack]
      obtain ⟨y, ys, hshape⟩ := stripEndsBack_cons_shape l2 rest2
      rw [hshape, joinWith]

/-- Stripping a contentful join strips only the end segments. -/
theorem pyStrip_joinWith (c : Char) :
    ∀ ls : List Str, (∀ seg ∈ ls, hasContent seg = true) →
      pyStrip (joinWith c ls) = joinWith c (stripEnds ls) := by
  intro ls
  induction ls with
  | nil =>
    intro _
    rfl
  | cons l rest ih =>
    intro hc
    cases rest with
    | nil => rw [joinWith, stripEnds, joinWith, pyStrip]
    | cons l2 rest2 =>
      have hl : hasContent l = true := hc l (List.mem_cons_self l (l2 :: rest2))
      have hJ : hasContent (joinWith c (l2 :: rest2)) = true :=
        hasContent_joinWith c (l2 :: rest2) l2
          (List.mem_cons_self l2 rest2)
          (hc l2 (List.mem_cons_of_mem l (List.mem_cons_self l2 rest2)))
      have hcJ : hasContent (c :: joinWith c (l2 :: rest2)) = true :=
        hasContent_cons_of_tail c _ hJ
      rw [joinWith, pyStrip, dropL,
        dropWhile_append_of_hasContent l (c :: joinWith c (l2 :: rest2)) hl]
      rw [dropR_append_of_hasContent (l.dropWhile isPySpace) _ hcJ]
      have hsingle : dropR (c :: joinWith c (l2 :: rest2))
          = c :: dropR (joinWith c (l2 :: rest2)) := by
        have := dropR_append_of_hasContent [c] (joinWith c (l2 :: rest2)) hJ
        rw [List.singleton_append] at this
        rw [this, List.singleton_append]
      rw [hsingle,
        dropR_joinWith c (l2 :: rest2)
          (fun seg hseg => hc seg (List.mem_cons_of_mem l hseg))]
      rw [stripEnds]
      obtain ⟨y, ys, hshape⟩ := stripEndsBack_cons_shape l2 rest2
      rw [hshape, joinWith, dropL]

/-- Members of `stripEndsBack` are members or back-stripped members. -/
theorem mem_stripEndsBack :
    ∀ (ls : List Str) (seg : Str), seg ∈ stripEndsBack ls →
      seg ∈ ls ∨ ∃ l ∈ ls, seg = dropR l := by
  intro ls
  induction ls with
  | nil => intro seg h; cases h
  | cons l rest ih =>
    intro seg h
    cases rest with
    | nil =>
      rw [stripEndsBack, List.mem_singleton] at h
      exact Or.inr ⟨l, List.mem_cons_self l [], h⟩
    | cons l2 rest2 =>
      rw [stripEndsBack] at h
      rcases List.mem_cons.mp h with he | he
      · exact Or.inl (he ▸ List.mem_cons_self l (l2 :: rest2))
      · rcases ih seg he with h1 | ⟨l0, hl0, he0⟩
        · exact Or.inl (List.mem_cons_of_mem l h1)
        · exact Or.inr ⟨l0, List.mem_cons_of_mem l hl0, he0⟩

/-- Members of `stripEnds` are members or stripped members. -/
theorem mem_stripEnds :
    ∀ (ls : List Str) (seg : Str), seg ∈ stripEnds ls →
      seg ∈ ls ∨ (∃ l ∈ ls, seg = dropL l) ∨ (∃ l ∈ ls, seg = dropR l)
      ∨ ∃ l ∈ ls, seg = pyStrip l := by
  intro ls seg h
  cases ls with
  | nil => cases h
  | cons l rest =>
    cases rest with
    | nil =>
      rw [stripEnds, List.mem_singleton] at h
      exact Or.inr (Or.inr (Or.inr ⟨l, List.mem_cons_self l [], h⟩))
    | cons l2 rest2 =>
      rw [stripEnds] at h
      rcases List.mem_cons.mp h with he | he
      · exact Or.inr (Or.inl ⟨l, List.mem_cons_self l (l2 :: rest2), he⟩)
      · rcases mem_stripEndsBack (l2 :: rest2) seg he with h1 | ⟨l0, hl0, he0⟩
        · exact Or.inl (List.mem_cons_of_mem l h1)
        · exact Or.inr (Or.inr (Or.inl ⟨l0, List.mem_cons_of_mem l hl0, he0⟩))

/-- Every member of `stripEnds ls` has content when all of `ls` do. -/
theorem stripEnds_hasContent (ls : List Str)
    (hc : ∀ seg ∈ ls, hasContent seg = true) :
    ∀ seg ∈ stripEnds ls, hasContent seg = true := by
  intro seg hseg
  rcases mem_stripEnds ls seg hseg with h | ⟨l, hl, he⟩ | ⟨l, hl, he⟩ | ⟨l, hl, he⟩
  · exact hc seg h
  · exact he ▸ hasContent_dropL l (hc l hl)
  · exact he ▸ hasContent_dropR l (hc l hl)
  · exact he ▸ hasContent_pyStrip l (hc l hl)

/-- Every member of `stripEnds ls` avoids `c` when all of `ls` do. -/
theorem stripEnds_not_mem (c : Char) (ls : List Str)
    (hm : ∀ seg ∈ ls, c ∉ seg) :
    ∀ seg ∈ stripEnds ls, c ∉ seg := by
  intro seg hseg
  rcases mem_stripEnds ls seg hseg with h | ⟨l, hl, he⟩ | ⟨l, hl, he⟩ | ⟨l, hl, he⟩
  · exact hm seg h
  · exact he ▸ not_mem_dropL c l (hm l hl)
  · exact he ▸ not_mem_dropR c l (hm l hl)
  · exact he ▸ not_mem_pyStrip c l (hm l hl)

/-- Every member of `stripEnds ls` keeps a run bound all of `ls` have. -/
theorem stripEnds_runOK (c : Char) (k : Nat) (ls : List Str)
    (hr : ∀ seg ∈ ls, runOK c k 0 seg = true) :
    ∀ seg ∈ stripEnds ls, runOK c k 0 seg = true := by
  intro seg hseg
  rcases mem_stripEnds ls seg hseg with h | ⟨l, hl, he⟩ | ⟨l, hl, he⟩ | ⟨l, hl, he⟩
  · exact hr seg h
  · exact he ▸ runOK_dropWhile c k isPySpace l (hr l hl)
  · exact he ▸ runOK_prefix c k _ _ 0 (dropR_isPrefixOf_self l) (hr l hl)
  · exact he ▸ runOK_pyStrip c k l (hr l hl)

/-- `stripEnds` of a cons is a cons. -/
theorem stripEnds_cons_shape (x : Str) (xs : List Str) :
    ∃ y ys, stripEnds (x :: xs) = y :: ys := by
  cases xs with
  | nil => exact ⟨pyStrip x, [], rfl⟩
  | cons x2 xs2 =>
    obtain ⟨y, ys, h⟩ := stripEndsBack_cons_shape x2 xs2
    exact ⟨dropL x, y :: ys, by rw [stripEnds, h]⟩

/-- A join of non-empty separator-free segments never has two adjacent
separators. -/
theorem joinWith_runOK_sep (c : Char) :
    ∀ ls : List Str, (∀ seg ∈ ls, seg ≠ [] ∧ c ∉ seg) →
      ∀ cnt, runOK c 1 cnt (joinWith c ls) = true := by
  intro ls
  induction ls with
  | nil => intro _ cnt; rfl
  | cons l rest ih =>
    intro hseg cnt
    obtain ⟨hne, hnm⟩ := hseg l (List.mem_cons_self l rest)
    cases rest with
    | nil =>
      rw [joinWith]
      exact runOK_of_not_mem c 1 l cnt hnm
    | cons l2 rest2 =>
      rw [joinWith, runOK_append_not_mem c 1 l hnm hne, runOK, if_pos rfl]
      rw [Bool.and_eq_true, decide_eq_true_eq]
      exact ⟨Nat.le_refl 1,
        ih (fun seg hs => hseg seg (List.mem_cons_of_mem l hs)) 1⟩

/-- A run bound on `c'` survives gluing with a different separator. -/
theorem runOK_append_sep (c c' : Char) (k : Nat) (hcc : c ≠ c') :
    ∀ (l m : Str) (cnt : Nat), runOK c' k cnt l = true →
      runOK c' k 0 m = true → runOK c' k cnt (l ++ c :: m) = true := by
  intro l
  induction l with
  | nil =>
    intro m cnt _ hm
    rw [List.nil_append, runOK, if_neg (fun he => hcc he)]
    exact hm
  | cons x xs ih =>
    intro m cnt h hm
    rw [List.cons_append, runOK]
    rw [runOK] at h
    by_cases hx : x = c'
    · rw [if_pos hx] at h ⊢
      rw [Bool.and_eq_true, decide_eq_true_eq] at h
      rw [Bool.and_eq_true, decide_eq_true_eq]
      exact ⟨h.1, ih m (cnt + 1) h.2 hm⟩
    · rw [if_neg hx] at h ⊢
      exact ih m 0 h hm

/-- A run bound on `c'` holds for a join with a different separator of
segments satisfying it. -/
theorem joinWith_runOK_other (c c' : Char) (k : Nat) (hcc : c ≠ c') :
    ∀ ls : List Str, (∀ seg ∈ ls, runOK c' k 0 seg = true) →
      runOK c' k 0 (joinWith c ls) = true := by
  intro ls
  induction ls with
  | nil => intro _; rfl
  | cons l rest ih =>
    intro hseg
    cases rest with
    | nil =>
      rw [joinWith]
      exact hseg l (List.mem_cons_self l [])
    | cons l2 rest2 =>
      rw [joinWith]
      exact runOK_append_sep c c' k hcc l _ 0
        (hseg l (List.mem_cons_self l (l2 :: rest2)))
        (ih (fun seg hs => hseg seg (List.mem_cons_of_mem l hs)))

/-- A run bound of 1 rules out the two-character substring `cc`. -/
theorem not_containsSub_pair (c : Char) :
    ∀ (l : Str) (cnt : Nat), runOK c 1 cnt l = true →
      containsSub [c, c] l = false := by
  intro l
  induction l with
  | nil => intro _ _; rfl
  | cons x xs ih =>
    intro cnt h
    have htail : runOK c 1 0 xs = true := runOK_cons_tail c 1 x xs cnt h
    rw [containsSub, Bool.or_eq_false_iff]
    refine ⟨?_, ih 0 htail⟩
    by_cases hx : x = c
    · rw [runOK, if_pos hx, Bool.and_eq_true, decide_eq_true_eq] at h
      cases xs with
      | nil => simp [List.isPrefixOf]
      | cons y t =>
        by_cases hy : y = c
        · exfalso
          rw [runOK, if_pos hy, Bool.and_eq_true, decide_eq_true_eq] at h
          omega
        · show List.isPrefixOf [c, c] (x :: y :: t) = false
          simp [List.isPrefixOf, hy]
          intro _ hcy
          exact absurd hcy.symm hy
    · show List.isPrefixOf [c, c] (x :: xs) = false
      simp [List.isPrefixOf]
      intro hcx
      exact absurd hcx.symm hx

/-- The head surviving `pyStrip`, if any, fails the whitespace test. -/
theorem head?_pyStrip_false (l : Str) (a : Char)
    (h : (pyStrip l).head? = some a) : isPySpace a = false := by
  rw [pyStrip] at h
  obtain ⟨t, ht⟩ := dropR_isPrefixOf_self (dropL l)
  rcases hx : dropR (dropL l) with _ | ⟨y, ys⟩
  · rw [hx] at h; cases h
  · rw [hx] at h ht
    rw [List.head?_cons, Option.some.injEq] at h
    have hdl : (dropL l).head? = some y := by
      rw [← ht, List.cons_append, List.head?_cons]
    rw [← h]
    exact head?_dropWhile_false isPySpace l y hdl

/-- Stripping is idempotent. -/
theorem pyStrip_idem (l : Str) : pyStrip (pyStrip l) = pyStrip l := by
  have h1 : dropL (pyStrip l) = pyStrip l := by
    rw [dropL]
    refine dropWhile_eq_self_of_head isPySpace (pyStrip l) ?_
    intro a ha
    exact head?_pyStrip_false l a ha
  rw [pyStrip, h1]
  show dropR (pyStrip l) = pyStrip l
  rw [pyStrip, dropR, dropR, List.reverse_reverse, dropWhile_self_idem]

/-- C10: `clean_text` is idempotent, and one application already yields a
fixed point with no two consecutive spaces and no blank (whitespace-only)
lines. -/
theorem c10_clean_text_idempotent (s : Str) :
    clean_text (clean_text s) = clean_text s
    ∧ containsSub (str "  ") (clean_text s) = false
    ∧ (clean_text s ≠ [] →
        ∀ seg ∈ splitOnChar '\n' (clean_text s), hasContent seg = true) := by
  have hrunSp : runOK ' ' 1 0 (capRuns ' ' 1 (capRuns '\n' 2 s)) = true :=
    runOK_capRuns ' ' 1 _
  have hlsContent : ∀ seg ∈ (splitOnChar '\n'
      (capRuns ' ' 1 (capRuns '\n' 2 s))).filter hasContent,
      hasContent seg = true :=
    fun seg hseg => List.of_mem_filter hseg
  have hlsNoNl : ∀ seg ∈ (splitOnChar '\n'
      (capRuns ' ' 1 (capRuns '\n' 2 s))).filter hasContent, '\n' ∉ seg :=
    fun seg hseg =>
      splitOnChar_not_mem '\n' _ seg (List.mem_of_mem_filter hseg)
  have hlsRun : ∀ seg ∈ (splitOnChar '\n'
      (capRuns ' ' 1 (capRuns '\n' 2 s))).filter hasContent,
      runOK ' ' 1 0 seg = true :=
    fun seg hseg =>
      splitOnChar_runOK '\n' ' ' (by decide) 1 _ hrunSp seg
        (List.mem_of_mem_filter hseg)
  rcases hcase : (splitOnChar '\n'
      (capRuns ' ' 1 (capRuns '\n' 2 s))).filter hasContent with _ | ⟨l0, ls0⟩
  · have ht : clean_text s = [] := by
      unfold clean_text
      dsimp only
      rw [hcase]
      rfl
    rw [ht]
    exact ⟨rfl, rfl, fun hne => absurd rfl hne⟩
  · have hContent : ∀ seg ∈ l0 :: ls0, hasContent seg = true :=
      fun seg hs => hlsContent seg (by rw [hcase]; exact hs)
    have hNoNl : ∀ seg ∈ l0 :: ls0, '\n' ∉ seg :=
      fun seg hs => hlsNoNl seg (by rw [hcase]; exact hs)
    have hRun : ∀ seg ∈ l0 :: ls0, runOK ' ' 1 0 seg = true :=
      fun seg hs => hlsRun seg (by rw [hcase]; exact hs)
    have htdef : clean_text s = pyStrip (joinWith '\n' (l0 :: ls0)) := by
      unfold clean_text
      dsimp only
      rw [hcase]
    have hstrip : pyStrip (joinWith '\n' (l0 :: ls0))
        = joinWith '\n' (stripEnds (l0 :: ls0)) :=
      pyStrip_joinWith '\n' (l0 :: ls0) hContent
    obtain ⟨y, ys, hshape⟩ := stripEnds_cons_shape l0 ls0
    have hContent' : ∀ seg ∈ stripEnds (l0 :: ls0), hasContent seg = true :=
      stripEnds_hasContent _ hContent
    have hNoNl' : ∀ seg ∈ stripEnds (l0 :: ls0), '\n' ∉ seg :=
      stripEnds_not_mem '\n' _ hNoNl
    have hRun' : ∀ seg ∈ stripEnds (l0 :: ls0), runOK ' ' 1 0 seg = true :=
      stripEnds_runOK ' ' 1 _ hRun
    have hF1 : runOK '\n' 2 0 (joinWith '\n' (stripEnds (l0 :: ls0))) = true :=
      runOK_mono_k '\n' 1 2 (by decide) _ 0
        (joinWith_runOK_sep '\n' _
          (fun seg hs =>
            ⟨hasContent_ne_nil seg (hContent' seg hs), hNoNl' seg hs⟩) 0)
    have hF2 : runOK ' ' 1 0 (joinWith '\n' (stripEnds (l0 :: ls0))) = true :=
      joinWith_runOK_other '\n' ' ' 1 (by decide) _ hRun'
    have hF3 : splitOnChar '\n' (joinWith '\n' (stripEnds (l0 :: ls0)))
        = stripEnds (l0 :: ls0) :=
      splitOnChar_joinWith '\n' _ (by rw [hshape]; simp) hNoNl'
    have hFilt : (stripEnds (l0 :: ls0)).filter hasContent
        = stripEnds (l0 :: ls0) := List.filter_eq_self.mpr hContent'
    refine ⟨?_, ?_, ?_⟩
    · rw [htdef, hstrip]
      unfold clean_text
      dsimp only
      rw [capRuns_eq_self '\n' 2 _ hF1, capRuns_eq_self ' ' 1 _ hF2, hF3, hFilt]
      rw [← hstrip]
      exact pyStrip_idem _
    · rw [htdef, hstrip]
      exact not_containsSub_pair ' ' _ 0 hF2
    · intro _ seg hseg
      rw [htdef, hstrip, hF3] at hseg
      exact hContent' seg hseg

/-- Witness for C10 at a concrete string, all three conjuncts applied. -/
theorem c10_clean_text_idempotent_witness :
    clean_text (clean_text (str " a  b \n\n\n c ")) = clean_text (str " a  b \n\n\n c ")
    ∧ containsSub (str "  ") (clean_text (str " a  b \n\n\n c ")) = false
    ∧ hasContent (str "a b ") = true :=
  ⟨(c10_clean_text_idempotent (str " a  b \n\n\n c ")).1,
   (c10_clean_text_idempotent (str " a  b \n\n\n c ")).2.1,
   (c10_clean_text_idempotent (str " a  b \n\n\n c ")).2.2 (by decide)
     (str "a b ") (by decide)⟩

end Vanush
